import Mathlib

set_option maxRecDepth 16384

/-!
Verification of the DevSolve authentication subsystem.

Shallow embedding of the token codec (`src/unnamed/part_000`, `lib/auth`),
the Edge route-guard verifier and middleware (`src/middleware.ts`), the
rate limiter (`src/unnamed/part_001`), and the auth endpoints
(refresh, forgot-password, reset-password, verify-email).

Modelling conventions:
* JS strings are `List Char`; byte sequences are `List Nat` (each < 256
  where it matters, stated as hypotheses).
* Times are naturals in milliseconds (`Date.now()`); the codec divides by
  1000 exactly as the source does.
* HMAC-SHA256 is an abstract parameter `hmac : List Nat → List Nat → List Nat`
  (key bytes, message bytes → mac bytes); both verifiers invoke the same
  primitive, as both sources invoke HMAC-SHA256.
* `Buffer.from(str, 'base64')` is modelled leniently, as Node decodes:
  recognised characters (both the standard and the url-safe alphabet)
  contribute their 6-bit values, foreign characters are skipped, the first
  `=` terminates the scan, and leftover values yield the trailing bytes —
  the decode never fails. `atob` is WHATWG forgiving-base64: remove ASCII
  whitespace, strip up to two trailing `=` when the length is a multiple
  of 4, reject a remaining `=`, a foreign character, or a length
  ≡ 1 mod 4.
* `JSON.parse` composed with the byte→text decode is modelled by one
  concrete parser for flat JSON objects (string/integer/boolean members),
  the sublanguage of every payload this system mints; both verifiers share
  it since both parse the same decoded bytes.
-/

/-- The standard base64 alphabet, index 0–63. -/
def stdAlphabet : List Char :=
  "ABCDEFGHIJKLMNOPQRSTUVWXYZabcdefghijklmnopqrstuvwxyz0123456789+/".data

/-- Character for a 6-bit group. -/
def b64Char (n : Nat) : Char := stdAlphabet.getD n 'A'

/-- Index of a base64 character; `none` for characters outside the alphabet
(including `=`). -/
def b64Index (c : Char) : Option Nat := stdAlphabet.indexOf? c

/-- `.replace(/\+/g, '-').replace(/\//g, '_')` on one character. -/
def urlMapChar (c : Char) : Char :=
  if c = '+' then '-' else if c = '/' then '_' else c

/-- The reverse replacement (`-` back to `+`, `_` back to `/`) on one
character. -/
def urlToStdChar (c : Char) : Char :=
  if c = '-' then '+' else if c = '_' then '/' else c

/-- Standard base64 → base64url without padding:
`.replace(/\+/g,'-').replace(/\//g,'_').replace(/=/g,'')`. -/
def b64ToUrl (cs : List Char) : List Char :=
  (cs.map urlMapChar).filter (fun c => c ≠ '=')

/-- base64url → standard base64 characters (`-`→`+`, `_`→`/`). -/
def urlToStd (cs : List Char) : List Char := cs.map urlToStdChar

/-- Standard padded base64 encoding of a byte list (groups of 3 bytes →
4 characters, `=`-padded). Models `Buffer.toString('base64')` and `btoa`. -/
def base64Encode : List Nat → List Char
  | [] => []
  | [a] => [b64Char (a / 4), b64Char (a % 4 * 16), '=', '=']
  | [a, b] => [b64Char (a / 4), b64Char (a % 4 * 16 + b / 16), b64Char (b % 16 * 4), '=']
  | a :: b :: c :: rest =>
      b64Char (a / 4) :: b64Char (a % 4 * 16 + b / 16) ::
      b64Char (b % 16 * 4 + c / 64) :: b64Char (c % 64) :: base64Encode rest

/-- Strict decoder for padded standard base64: length a multiple of 4,
alphabet characters only, `=` only as final padding (at most two). This is
the decoding core of WHATWG forgiving-base64 (`atob`), which errors on any
foreign character; Node's lenient `Buffer` decoder is `nodeB64Decode`
below. -/
def b64DecodePadded : List Char → Option (List Nat)
  | [] => some []
  | c1 :: c2 :: c3 :: c4 :: rest =>
      if rest = [] then
        if c3 = '=' ∧ c4 = '=' then
          match b64Index c1, b64Index c2 with
          | some a, some b => some [a * 4 + b / 16]
          | _, _ => none
        else if c4 = '=' then
          match b64Index c1, b64Index c2, b64Index c3 with
          | some a, some b, some c => some [a * 4 + b / 16, b % 16 * 16 + c / 4]
          | _, _, _ => none
        else
          match b64Index c1, b64Index c2, b64Index c3, b64Index c4 with
          | some a, some b, some c, some d =>
              some [a * 4 + b / 16, b % 16 * 16 + c / 4, c % 4 * 64 + d]
          | _, _, _, _ => none
      else
        match b64Index c1, b64Index c2, b64Index c3, b64Index c4 with
        | some a, some b, some c, some d =>
            (b64DecodePadded rest).map
              (fun bs => (a * 4 + b / 16) :: (b % 16 * 16 + c / 4) :: (c % 4 * 64 + d) :: bs)
        | _, _, _, _ => none
  | _ => none

/-- The source's `while (str.length % 4) str += '='` padding loop. -/
def padB64 (cs : List Char) : List Char :=
  cs ++ List.replicate ((4 - cs.length % 4) % 4) '='

/-- The 6-bit value Node's base64 decoder assigns one character: the
standard alphabet, plus the url-safe `-` and `_` (Node documents that it
also accepts the URL and Filename Safe Alphabet); `none` for every other
character, which the lenient decoder skips. -/
def nodeB64Val (c : Char) : Option Nat :=
  if c = '-' then some 62 else if c = '_' then some 63 else b64Index c

/-- Scanning phase of Node `Buffer.from(str, 'base64')`: collect the 6-bit
values of recognised characters, silently skip unrecognised ones
(whitespace included), and stop at the first `=`, which terminates the
data. -/
def nodeB64Digits : List Char → List Nat
  | [] => []
  | c :: rest =>
      if c = '=' then []
      else
        match nodeB64Val c with
        | some v => v :: nodeB64Digits rest
        | none => nodeB64Digits rest

/-- Grouping phase of Node `Buffer.from(str, 'base64')`: every four
collected 6-bit values yield three bytes; three leftover values yield two
bytes, two yield one, and a single leftover value is dropped. -/
def b64DigitsToBytes : List Nat → List Nat
  | a :: b :: c :: d :: rest =>
      (a * 4 + b / 16) :: (b % 16 * 16 + c / 4) :: (c % 4 * 64 + d) ::
        b64DigitsToBytes rest
  | [a, b, c] => [a * 4 + b / 16, b % 16 * 16 + c / 4]
  | [a, b] => [a * 4 + b / 16]
  | _ => []

/-- Node `Buffer.from(str, 'base64')`: lenient base64 decoding that never
throws — foreign characters are skipped and `=` stops the scan. -/
def nodeB64Decode (s : List Char) : List Nat :=
  b64DigitsToBytes (nodeB64Digits s)

/-- `base64urlDecode` from `lib/auth`: map the url alphabet back, pad with
`=`, decode with Node's lenient `Buffer` decoder. The decode step itself
can never throw, so the result is always `some`; the `Option` keeps the
`decode`-then-`JSON.parse` composition shape of the callers. Yields raw
bytes. -/
def base64urlDecode (s : List Char) : Option (List Nat) :=
  some (nodeB64Decode (padB64 (urlToStd s)))

/-- Strip up to two trailing `=` (forgiving-base64, applied when the length
is a multiple of 4). -/
def stripTrailingEq (s : List Char) : List Char :=
  let t := if s.getLast? = some '=' then s.dropLast else s
  if t.getLast? = some '=' then t.dropLast else t

/-- ASCII whitespace, which forgiving-base64 removes before decoding. -/
def isB64Ws (c : Char) : Bool :=
  c == '\t' || c == '\n' || c == '\x0c' || c == '\r' || c == ' '

/-- WHATWG `atob` (forgiving-base64): remove all ASCII whitespace; strip up
to two trailing `=` when the remaining length is a multiple of 4; fail if
any `=` remains, if a character is outside the standard alphabet, or if
the length is ≡ 1 mod 4; otherwise decode with implied padding. Yields raw
bytes (the latin1 code units `atob` returns). -/
def atobDecode (s : List Char) : Option (List Nat) :=
  let w := s.filter (fun c => !isB64Ws c)
  let t := if w.length % 4 = 0 then stripTrailingEq w else w
  if t.contains '=' then none
  else b64DecodePadded (padB64 t)

/-- UTF-8 bytes of a JS string; exact for code points below 128, which is
all this system ever signs (stated as a hypothesis where needed). -/
def strBytes (cs : List Char) : List Nat := cs.map Char.toNat

/-- Text form of decoded bytes (identity on ASCII, where the utf8 and
latin1 decodings of the two runtimes coincide). -/
def bytesToChars (bs : List Nat) : List Char := bs.map Char.ofNat

/-- A character that serializes into a JSON string literal unchanged:
printable, not a quote, not a backslash, ASCII. -/
def wfChar (c : Char) : Prop :=
  c ≠ '"' ∧ c ≠ '\\' ∧ 32 ≤ c.toNat ∧ c.toNat < 128

instance (c : Char) : Decidable (wfChar c) := by
  unfold wfChar; infer_instance

def wfStr (s : List Char) : Prop := ∀ c ∈ s, wfChar c

instance (s : List Char) : Decidable (wfStr s) := by
  unfold wfStr; infer_instance

/-- The decoded token object (`DecodedToken`); absent JSON members are
`none`, mirroring `undefined` property reads in JS. -/
structure Decoded where
  userId : Option (List Char) := none
  email : Option (List Char) := none
  role : Option (List Char) := none
  isVerified : Option Bool := none
  iat : Option Nat := none
  exp : Option Nat := none
deriving DecidableEq

/-- A flat JSON value as minted by this system. -/
inductive JVal where
  | jstr (s : List Char)
  | jnum (n : Nat)
  | jbool (b : Bool)
deriving DecidableEq

def isWsChar (c : Char) : Bool :=
  c = ' ' || c = '\n' || c = '\t' || c = '\r'

def skipWs (cs : List Char) : List Char := cs.dropWhile isWsChar

/-- Body of a JSON string literal after the opening quote: plain characters
up to the closing quote; escapes and control characters are outside the
minted sublanguage and fail the parse. -/
def jstrBody : List Char → Option (List Char × List Char)
  | [] => none
  | c :: rest =>
      if c = '"' then some ([], rest)
      else if c = '\\' ∨ c.toNat < 32 then none
      else (jstrBody rest).map (fun p => (c :: p.1, p.2))

def parseJString : List Char → Option (List Char × List Char)
  | '"' :: rest => jstrBody rest
  | _ => none

/-- `parseInt` on a digit string (also how `JSON.parse` reads the integers
this system mints). -/
def digitsToNat (ds : List Char) : Nat :=
  ds.foldl (fun n c => n * 10 + (c.toNat - 48)) 0

def parseJNum (cs : List Char) : Option (Nat × List Char) :=
  let ds := cs.takeWhile Char.isDigit
  let rest := cs.dropWhile Char.isDigit
  if ds = [] then none
  else
    match rest with
    | [] => some (digitsToNat ds, [])
    | c :: _ =>
        if c = '.' ∨ c = 'e' ∨ c = 'E' then none
        else some (digitsToNat ds, rest)

def parseJValue (cs : List Char) : Option (JVal × List Char) :=
  match cs with
  | [] => none
  | c :: _ =>
      if c = '"' then (parseJString cs).map (fun p => (JVal.jstr p.1, p.2))
      else if c = 't' then
        match cs with
        | 't' :: 'r' :: 'u' :: 'e' :: r => some (JVal.jbool true, r)
        | _ => none
      else if c = 'f' then
        match cs with
        | 'f' :: 'a' :: 'l' :: 's' :: 'e' :: r => some (JVal.jbool false, r)
        | _ => none
      else (parseJNum cs).map (fun p => (JVal.jnum p.1, p.2))

/-- Record one parsed member on the decoded object. Members with the wrong
type for their key leave the field unusable (`none`), matching how the
code's later reads of that property behave; unknown keys are ignored. -/
def updField (d : Decoded) (k : List Char) (v : JVal) : Decoded :=
  if k = "userId".data then
    match v with | JVal.jstr s => { d with userId := some s } | _ => { d with userId := none }
  else if k = "email".data then
    match v with | JVal.jstr s => { d with email := some s } | _ => { d with email := none }
  else if k = "role".data then
    match v with | JVal.jstr s => { d with role := some s } | _ => { d with role := none }
  else if k = "isVerified".data then
    match v with | JVal.jbool b => { d with isVerified := some b } | _ => { d with isVerified := none }
  else if k = "iat".data then
    match v with | JVal.jnum n => { d with iat := some n } | _ => { d with iat := none }
  else if k = "exp".data then
    match v with | JVal.jnum n => { d with exp := some n } | _ => { d with exp := none }
  else d

/-- Members of a flat JSON object, fuel-bounded (the fuel is the input
length at the top level, always sufficient since every member consumes at
least one character). -/
def parseMembers : Nat → List Char → Decoded → Option Decoded
  | 0, _, _ => none
  | fuel + 1, cs, d =>
      match parseJString (skipWs cs) with
      | none => none
      | some (k, r1) =>
          match skipWs r1 with
          | [] => none
          | c :: r2 =>
              if c = ':' then
                match parseJValue (skipWs r2) with
                | none => none
                | some (v, r3) =>
                    match skipWs r3 with
                    | [] => none
                    | c2 :: r4 =>
                        if c2 = ',' then parseMembers fuel r4 (updField d k v)
                        else if c2 = '}' then
                          if skipWs r4 = [] then some (updField d k v) else none
                        else none
              else none

/-- `JSON.parse` of the decoded payload text, on the flat-object
sublanguage this system mints (any other input fails, which the callers
treat as an invalid token). -/
def parsePayloadChars (cs : List Char) : Option Decoded :=
  match skipWs cs with
  | [] => none
  | c :: r =>
      if c = '{' then
        match skipWs r with
        | [] => parseMembers cs.length r {}
        | c2 :: r2 =>
            if c2 = '}' then (if skipWs r2 = [] then some {} else none)
            else parseMembers cs.length r {}
      else none

/-- A JSON string literal (no escaping: the callers only mint `wfStr`
strings). -/
def jstrLit (s : List Char) : List Char := '"' :: s ++ '"' :: []

/-- Decimal digits, fuel-bounded so the definition is structural (and so
evaluates inside the kernel); the fuel `n + 1` always suffices. -/
def natDigitsGo : Nat → Nat → List Char → List Char
  | 0, _, acc => acc
  | fuel + 1, n, acc =>
      if n < 10 then Char.ofNat (48 + n) :: acc
      else natDigitsGo fuel (n / 10) (Char.ofNat (48 + n % 10) :: acc)

/-- Decimal digits of a natural number. -/
def natDigits (n : Nat) : List Char := natDigitsGo (n + 1) n []

/-- One serialized string member `"k":"s",` followed by the rest of the
object text. -/
def strMemberThen (k s rest : List Char) : List Char :=
  jstrLit k ++ ':' :: (jstrLit s ++ ',' :: rest)

/-- One serialized boolean member `"k":b,` followed by the rest. -/
def boolMemberThen (k : List Char) (b : Bool) (rest : List Char) : List Char :=
  jstrLit k ++ ':' ::
    ((if b then 't' :: 'r' :: 'u' :: 'e' :: [] else 'f' :: 'a' :: 'l' :: 's' :: 'e' :: []) ++
      ',' :: rest)

/-- One serialized integer member `"k":n,` followed by the rest. -/
def natMemberThen (k : List Char) (n : Nat) (rest : List Char) : List Char :=
  jstrLit k ++ ':' :: (natDigits n ++ ',' :: rest)

/-- The final serialized member `"k":n` and the closing brace. -/
def natMemberLast (k : List Char) (n : Nat) : List Char :=
  jstrLit k ++ ':' :: (natDigits n ++ '}' :: [])

/-- The identity claims a token carries (`TokenPayload`; login also spreads
`isVerified` into it, refresh does not, hence every field is optional and
`JSON.stringify` omits the absent ones). -/
structure Claims where
  userId : Option (List Char) := none
  email : Option (List Char) := none
  role : Option (List Char) := none
  isVerified : Option Bool := none
deriving DecidableEq

/-- `JSON.stringify({...payload, iat, exp})`: members in object insertion
order — userId, email, role, isVerified, iat, exp — with `undefined`
(absent) properties omitted. -/
def serializePayload (c : Claims) (iat exp : Nat) : List Char :=
  let tEnd := natMemberThen "iat".data iat (natMemberLast "exp".data exp)
  let t1 := match c.isVerified with
            | none => tEnd
            | some b => boolMemberThen "isVerified".data b tEnd
  let t2 := match c.role with
            | none => t1
            | some r => strMemberThen "role".data r t1
  let t3 := match c.email with
            | none => t2
            | some e => strMemberThen "email".data e t2
  let t4 := match c.userId with
            | none => t3
            | some u => strMemberThen "userId".data u t3
  '{' :: t4

/-- JS `token.split('.')`. -/
def splitOnDot : List Char → List (List Char)
  | [] => [[]]
  | c :: rest =>
      if c = '.' then [] :: splitOnDot rest
      else
        match splitOnDot rest with
        | r :: rs => (c :: r) :: rs
        | [] => [[c]]

/-- The abstract keyed-hash primitive (HMAC-SHA256): key bytes and message
bytes to mac bytes. Both runtimes invoke the same mathematical function. -/
def HmacFn : Type := List Nat → List Nat → List Nat

/-- `createSignature` from `lib/auth`: HMAC-SHA256, base64, then the three
url-safe replacements. -/
def createSignature (hmac : HmacFn) (secret : List Char) (data : List Char) : List Char :=
  b64ToUrl (base64Encode (hmac (strBytes secret) (strBytes data)))

/-- `parseDuration`: `^(\d+)([smhd])$`, defaulting to 15 minutes. -/
def parseDuration (s : List Char) : Nat :=
  match s.getLast? with
  | none => 15 * 60 * 1000
  | some u =>
      let ds := s.dropLast
      if ds ≠ [] ∧ ds.all Char.isDigit then
        if u = 's' then digitsToNat ds * 1000
        else if u = 'm' then digitsToNat ds * 60 * 1000
        else if u = 'h' then digitsToNat ds * 60 * 60 * 1000
        else if u = 'd' then digitsToNat ds * 24 * 60 * 60 * 1000
        else 15 * 60 * 1000
      else 15 * 60 * 1000

/-- The constant JWT header `JSON.stringify({ alg: 'HS256', typ: 'JWT' })`. -/
def headerChars : List Char :=
  "\x7b\"alg\":\"HS256\",\"typ\":\"JWT\"\x7d".data

/-- `signToken` from `lib/auth`. `nowMs` is `Date.now()`. -/
def signToken (hmac : HmacFn) (secret : List Char) (payload : Claims)
    (expiresIn : List Char) (nowMs : Nat) : List Char :=
  let iat := nowMs / 1000
  let exp := iat + parseDuration expiresIn / 1000
  let encodedHeader := b64ToUrl (base64Encode (strBytes headerChars))
  let encodedPayload := b64ToUrl (base64Encode (strBytes (serializePayload payload iat exp)))
  let signature := createSignature hmac secret (encodedHeader ++ '.' :: encodedPayload)
  encodedHeader ++ '.' :: encodedPayload ++ '.' :: signature

/-- The expiry test `payload.exp < Math.floor(Date.now() / 1000)`; an
absent `exp` compares as `undefined < n`, which is false. -/
def expiredAt (payload : Decoded) (nowMs : Nat) : Bool :=
  match payload.exp with
  | some e => decide (e < nowMs / 1000)
  | none => false

/-- `verifyToken` from `lib/auth`: three-part split, recomputed signature,
payload decode, expiry check; every failure yields `none`. Total by
construction, modelling that verification never throws. -/
def verifyToken (hmac : HmacFn) (secret : List Char) (nowMs : Nat)
    (token : List Char) : Option Decoded :=
  match splitOnDot token with
  | [encodedHeader, encodedPayload, signature] =>
      let expected := createSignature hmac secret (encodedHeader ++ '.' :: encodedPayload)
      if signature ≠ expected then none
      else
        match (base64urlDecode encodedPayload).bind
            (fun bs => parsePayloadChars (bytesToChars bs)) with
        | none => none
        | some payload => if expiredAt payload nowMs then none else some payload
  | _ => none

/-- Result of `verifyTokenEdge` in `middleware.ts`: `{ valid, isVerified? }`. -/
structure EdgeResult where
  valid : Bool
  isVerified : Option Bool
deriving DecidableEq

/-- `verifyTokenEdge` from `middleware.ts`: the same three-part split,
HMAC-SHA256 signature (Web Crypto), base64url-without-padding encoding and
expiry check, but payload decoding goes through `atob`. -/
def verifyTokenEdge (hmac : HmacFn) (secret : List Char) (nowMs : Nat)
    (token : List Char) : EdgeResult :=
  match splitOnDot token with
  | [encodedHeader, encodedPayload, signature] =>
      let expected := b64ToUrl (base64Encode
        (hmac (strBytes secret) (strBytes (encodedHeader ++ '.' :: encodedPayload))))
      if signature ≠ expected then ⟨false, none⟩
      else
        match (atobDecode (urlToStd encodedPayload)).bind
            (fun bs => parsePayloadChars (bytesToChars bs)) with
        | none => ⟨false, none⟩
        | some payload =>
            if expiredAt payload nowMs then ⟨false, none⟩
            else ⟨true, payload.isVerified⟩
  | _ => ⟨false, none⟩

/-- `JWT_SECRET` of the main codec (`lib/auth` line 11): the environment
value, or the hardcoded fallback. -/
def mainJwtSecret (env : Option (List Char)) : List Char :=
  env.getD "fallback-secret-change-in-production".data

/-- `JWT_SECRET` of the Edge verifier (`middleware.ts` line 39): the same
environment value, but a different hardcoded fallback. -/
def edgeJwtSecret (env : Option (List Char)) : List Char :=
  env.getD "fallback-secret".data

/-- One entry of the in-memory rate-limit map. -/
structure RateLimitEntry where
  count : Nat
  resetTime : Nat
deriving DecidableEq

structure RateLimitConfig where
  windowMs : Nat
  maxRequests : Nat
deriving DecidableEq

/-- `checkRateLimit`'s result object (JS numbers can go negative, e.g.
`remaining = maxRequests - 1` with `maxRequests = 0`). -/
structure RateLimitResult where
  allowed : Bool
  remaining : Int
  resetIn : Int
deriving DecidableEq

/-- The in-memory `rateLimitStore` map. -/
def RLStore : Type := String → Option RateLimitEntry

def rlSet (store : RLStore) (key : String) (e : RateLimitEntry) : RLStore :=
  fun k => if k = key then some e else store k

/-- `checkRateLimit` from the rate limiter: fixed window, returning the
result and the mutated store. -/
def checkRateLimit (key : String) (config : RateLimitConfig) (now : Nat)
    (store : RLStore) : RateLimitResult × RLStore :=
  match store key with
  | none =>
      (⟨true, (config.maxRequests : Int) - 1, (config.windowMs : Int)⟩,
       rlSet store key ⟨1, now + config.windowMs⟩)
  | some entry =>
      if entry.resetTime < now then
        (⟨true, (config.maxRequests : Int) - 1, (config.windowMs : Int)⟩,
         rlSet store key ⟨1, now + config.windowMs⟩)
      else
        let entry' : RateLimitEntry := ⟨entry.count + 1, entry.resetTime⟩
        let store' := rlSet store key entry'
        if entry'.count > config.maxRequests then
          (⟨false, 0, (entry.resetTime : Int) - (now : Int)⟩, store')
        else
          (⟨true, (config.maxRequests : Int) - (entry'.count : Int),
            (entry.resetTime : Int) - (now : Int)⟩, store')

/-- `getRateLimitKey(identifier, endpoint)` = `endpoint:identifier`. -/
def getRateLimitKey (identifier endpoint : String) : String :=
  endpoint ++ ":" ++ identifier

/-- `resetRateLimit`: delete the key. -/
def resetRateLimit (store : RLStore) (key : String) : RLStore :=
  fun k => if k = key then none else store k

/-- A sequence of `checkRateLimit` calls for one key at the given times,
threading the store; returns the result list and the final store. -/
def rlRun (key : String) (config : RateLimitConfig) :
    List Nat → RLStore → List RateLimitResult × RLStore
  | [], store => ([], store)
  | t :: ts, store =>
      let (r, store') := checkRateLimit key config t store
      let (rs, store'') := rlRun key config ts store'
      (r :: rs, store'')

/-- `middleware`'s decision for one request. -/
inductive MwDecision where
  | next
  | redirectLogin (redirect : List Char)
  | redirectDashboard
deriving DecidableEq

def listStartsWith (pre s : List Char) : Bool := List.isPrefixOf pre s

/-- `protectedRoutes.some(route => pathname.startsWith(route))`. -/
def isProtectedRoute (pathname : List Char) : Bool :=
  listStartsWith "/dashboard".data pathname

/-- `authRoutes.some(route => pathname === route || pathname.startsWith(route))`. -/
def isAuthRoute (pathname : List Char) : Bool :=
  (pathname = "/login".data || listStartsWith "/login".data pathname) ||
  (pathname = "/register".data || listStartsWith "/register".data pathname)

/-- The guard bypass: `_next` assets, the auth API namespace, and any path
containing a dot. -/
def mwSkips (pathname : List Char) : Bool :=
  listStartsWith "/_next".data pathname ||
  listStartsWith "/api/auth".data pathname ||
  pathname.contains '.'

/-- JS truthiness of the optional `isVerified` property. -/
def truthy : Option Bool → Bool
  | some b => b
  | none => false

/-- `middleware` from `middleware.ts`: bypass check, cookie read, Edge
verification, then the protected/auth-route decisions. -/
def middleware (hmac : HmacFn) (secret : List Char) (nowMs : Nat)
    (pathname : List Char) (accessToken : Option (List Char)) : MwDecision :=
  if mwSkips pathname then MwDecision.next
  else
    let tokenResult :=
      match accessToken with
      | some t => verifyTokenEdge hmac secret nowMs t
      | none => ⟨false, some false⟩
    let isAuthenticated := tokenResult.valid
    if isProtectedRoute pathname && (!isAuthenticated || !truthy tokenResult.isVerified) then
      MwDecision.redirectLogin pathname
    else if isAuthRoute pathname && isAuthenticated && truthy tokenResult.isVerified then
      MwDecision.redirectDashboard
    else
      MwDecision.next

/-- The refresh endpoint's outcome: an error envelope, or the two freshly
minted tokens (set as the new cookies). -/
inductive RefreshOut where
  | err (status : Nat) (message : List Char)
  | ok (newAccessToken newRefreshToken : List Char)
deriving DecidableEq

/-- POST `/api/auth/refresh`: read the refresh cookie, verify it, mint a
new access+refresh pair from `{ userId, email, role }` of the decoded
payload (the token-rotation payload literal of the source). -/
def refreshPOST (hmac : HmacFn) (secret : List Char)
    (accessExpiresIn refreshExpiresIn : List Char) (nowMs : Nat)
    (refreshToken : Option (List Char)) : RefreshOut :=
  match refreshToken with
  | none => RefreshOut.err 401 "No refresh token provided".data
  | some rt =>
      match verifyToken hmac secret nowMs rt with
      | none => RefreshOut.err 401 "Invalid or expired refresh token".data
      | some decoded =>
          let tokenPayload : Claims :=
            { userId := decoded.userId, email := decoded.email, role := decoded.role }
          RefreshOut.ok
            (signToken hmac secret tokenPayload accessExpiresIn nowMs)
            (signToken hmac secret tokenPayload refreshExpiresIn nowMs)

/-- `tokenPayload` as the login route builds it (part_010 lines 230–235):
userId, email, role and the `isVerified` flag for the middleware checks. -/
def loginTokenPayload (userId email role : List Char) (isVerified : Bool) : Claims :=
  { userId := some userId, email := some email, role := some role,
    isVerified := some isVerified }

/-- The fields of a user document this subsystem reads or mutates. -/
structure UserRec where
  name : List Char
  email : List Char
  password : List Char
  role : List Char
  isVerified : Bool
  verificationToken : Option (List Char) := none
  resetPasswordToken : Option (List Char) := none
  resetPasswordExpires : Option Nat := none
deriving DecidableEq

/-- `user.save()` with the model's pre-save hook: re-hash the password
with bcrypt only when it was modified. -/
def saveUser (bcryptHash : List Char → List Char) (orig upd : UserRec) : UserRec :=
  if upd.password = orig.password then upd
  else { upd with password := bcryptHash upd.password }

/-- `Model.findOne(criteria)`: the first matching document. -/
def findFirst (p : UserRec → Bool) (db : List UserRec) : Option UserRec :=
  db.find? p

/-- Persisting a mutation of the found document: replace the first match. -/
def updateFirst (p : UserRec → Bool) (f : UserRec → UserRec) :
    List UserRec → List UserRec
  | [] => []
  | u :: rest => if p u then f u :: rest else u :: updateFirst p f rest

/-- `email.toLowerCase()`. -/
def toLowerChars (s : List Char) : List Char := s.map Char.toLower

/-- The uniform HTTP envelope the endpoints return (status, `success`,
`message`). -/
structure ApiResponse where
  status : Nat
  success : Bool
  message : List Char
deriving DecidableEq

/-- JS truthiness of an optional string request field (`!email` is true
for a missing field and for the empty string). -/
def strTruthy : Option (List Char) → Bool
  | none => false
  | some [] => false
  | some (_ :: _) => true

/-- `RATE_LIMIT_CONFIGS.passwordReset`: 3 requests per hour. -/
def passwordResetConfig : RateLimitConfig := ⟨60 * 60 * 1000, 3⟩

/-- The forgot-password anti-enumeration envelope. -/
def forgotSuccessResp : ApiResponse :=
  ⟨200, true, "If an account exists with that email, a password reset link has been sent.".data⟩

/-- POST `/api/auth/forgot-password`: rate limit, require an email, look
the account up, and always answer with the same generic success envelope;
mint/store/send the reset token only when the account exists. `sha` models
`hashToken` (SHA-256 hex), `resetTokenRaw` the output of `generateToken()`.
Returns the response, the database after the mutation, and whether the
reset email was sent (the rate-limit store mutation is not returned; the
claims here do not concern it). -/
def forgotPasswordPOST (sha bcryptHash : List Char → List Char) (nowMs : Nat)
    (store : RLStore) (ip : String) (email : Option (List Char))
    (db : List UserRec) (resetTokenRaw : List Char) :
    ApiResponse × List UserRec × Bool :=
  let rl := (checkRateLimit (getRateLimitKey ip "passwordReset") passwordResetConfig nowMs store).1
  if !rl.allowed then
    (⟨429, false, "Too many requests. Please try again later.".data⟩, db, false)
  else if !strTruthy email then
    (⟨400, false, "Email is required".data⟩, db, false)
  else
    let lc := toLowerChars (email.getD [])
    match findFirst (fun u => u.email = lc) db with
    | none => (forgotSuccessResp, db, false)
    | some _ =>
        (forgotSuccessResp,
         updateFirst (fun u => u.email = lc)
           (fun u => saveUser bcryptHash u
             { u with resetPasswordToken := some (sha resetTokenRaw),
                      resetPasswordExpires := some (nowMs + 60 * 60 * 1000) }) db,
         true)

/-- The user matching criterion of the reset-password lookup: stored hash
equals the hash of the presented token, and `resetPasswordExpires` is
strictly in the future (an absent expiry never satisfies `$gt`). -/
def resetMatches (hashedToken : List Char) (nowMs : Nat) (u : UserRec) : Bool :=
  u.resetPasswordToken = some hashedToken &&
  match u.resetPasswordExpires with
  | some e => decide (nowMs < e)
  | none => false

/-- POST `/api/auth/reset-password`: validate inputs, find the user by
token hash and unexpired expiry, then set the new password (re-hashed by
the pre-save hook) and clear both reset fields. -/
def resetPasswordPOST (sha bcryptHash : List Char → List Char) (nowMs : Nat)
    (token password : Option (List Char)) (db : List UserRec) :
    ApiResponse × List UserRec :=
  if !strTruthy token || !strTruthy password then
    (⟨400, false, "Token and password are required".data⟩, db)
  else if (password.getD []).length < 8 then
    (⟨400, false, "Password too short".data⟩, db)
  else
    let hashedToken := sha (token.getD [])
    match findFirst (resetMatches hashedToken nowMs) db with
    | none => (⟨400, false, "Invalid or expired reset token".data⟩, db)
    | some _ =>
        (⟨200, true, "Password reset successfully. You can now log in with your new password.".data⟩,
         updateFirst (resetMatches hashedToken nowMs)
           (fun u => saveUser bcryptHash u
             { u with password := password.getD [],
                      resetPasswordToken := none,
                      resetPasswordExpires := none }) db)

/-- The verify-email success envelope. -/
def verifySuccessResp : ApiResponse :=
  ⟨200, true, "Email verified successfully. You can now log in.".data⟩

/-- The verify-email unknown-token envelope. -/
def verifyInvalidResp : ApiResponse :=
  ⟨400, false, "Invalid or expired verification token".data⟩

/-- GET `/api/auth/verify-email?token=...`: require the token, find the
user by its hash, mark the user verified and clear the stored token hash. -/
def verifyEmailGET (sha bcryptHash : List Char → List Char)
    (token : Option (List Char)) (db : List UserRec) :
    ApiResponse × List UserRec :=
  if !strTruthy token then
    (⟨400, false, "Verification token is required".data⟩, db)
  else
    let hashedToken := sha (token.getD [])
    match findFirst (fun u => u.verificationToken = some hashedToken) db with
    | none => (verifyInvalidResp, db)
    | some _ =>
        (verifySuccessResp,
         updateFirst (fun u => u.verificationToken = some hashedToken)
           (fun u => saveUser bcryptHash u
             { u with isVerified := true, verificationToken := none }) db)

def wfOptStr : Option (List Char) → Prop
  | none => True
  | some s => wfStr s

instance (o : Option (List Char)) : Decidable (wfOptStr o) := by
  unfold wfOptStr
  cases o <;> infer_instance

/-- The claim strings a route signs are serializable without escaping. -/
def wfClaims (c : Claims) : Prop := wfOptStr c.userId ∧ wfOptStr c.email ∧ wfOptStr c.role

instance (c : Claims) : Decidable (wfClaims c) := by
  unfold wfClaims
  infer_instance

/-- A trivial keyed-hash instantiation used for concrete counterexamples
(the divergences below hold for every `hmac`, so any instance exhibits
them). -/
def demoHmac : HmacFn := fun _ _ => [0]

def demoSecret : List Char := "s".data

/-- The payload segment of the C2 counterexample: a correctly signed token
whose payload carries one stray `=`. -/
def c2payloadSeg : List Char :=
  b64ToUrl (base64Encode (strBytes "\x7b\"exp\":99\x7d".data)) ++ ['=']

/-- The C2 counterexample token: header `AA`, the stray-`=` payload, and
the signature the codec itself computes for those two segments. -/
def c2tok : List Char :=
  "AA".data ++ '.' :: (c2payloadSeg ++ '.' ::
    createSignature demoHmac demoSecret ("AA".data ++ '.' :: c2payloadSeg))

def c2wClaims : Claims :=
  loginTokenPayload "u1".data "a@b.c".data "user".data true

def c2wTok : List Char := signToken demoHmac demoSecret c2wClaims "1h".data 0

def c3Claims : Claims :=
  loginTokenPayload "u1".data "a@b.c".data "user".data true

def c3tok : List Char := signToken demoHmac demoSecret c3Claims "1s".data 0

def c4payloadSeg : List Char := b64ToUrl (base64Encode (strBytes "\x7b\"exp\":5\x7d".data))

/-- The C4 counterexample token: an empty header segment, a valid payload
and a correctly computed signature over `"" + "." + payload`. -/
def c4tok : List Char :=
  '.' :: (c4payloadSeg ++ '.' ::
    createSignature demoHmac demoSecret ('.' :: c4payloadSeg))

def c1Claims : Claims := loginTokenPayload "u1".data "a@b.c".data "user".data true

def c1RefreshTok : List Char := signToken demoHmac demoSecret c1Claims "7d".data 0

/-- The rotation payload the refresh route actually builds from the C1
refresh token: userId, email and role survive, the verified flag does not. -/
def c1RotatedClaims : Claims :=
  { userId := some "u1".data, email := some "a@b.c".data, role := some "user".data }

/-- A keyed hash whose one-byte output depends only on the key length;
enough to witness that HMAC with the two distinct fallback secrets (of
lengths 37 and 15) produces distinct signatures. -/
def c10Hmac : HmacFn := fun k _ => [k.length % 256]

def c10Claims : Claims := loginTokenPayload "u1".data "a@b.c".data "user".data true

def c7ip : String := "203.0.113.7"

def c7email : List Char := "user@example.com".data

def c8User : UserRec :=
  { name := "Alice".data, email := "alice@example.com".data,
    password := "oldpass12".data, role := "user".data, isVerified := true,
    resetPasswordToken := some "tok".data, resetPasswordExpires := some 100 }

def c9User : UserRec :=
  { name := "Bob".data, email := "bob@example.com".data,
    password := "password1".data, role := "user".data, isVerified := false,
    verificationToken := some "vtok".data }

theorem b64Char_mem (n : Nat) : b64Char n ∈ stdAlphabet := by
  unfold b64Char
  by_cases h : n < stdAlphabet.length
  · rw [List.getD_eq_getElem _ _ h]; exact List.getElem_mem _
  · rw [List.getD_eq_default _ _ (by omega)]; decide

theorem b64Char_ne_eq (n : Nat) : b64Char n ≠ '=' :=
  fun h => absurd (h ▸ b64Char_mem n) (by decide)

theorem b64Char_ne_dot (n : Nat) : b64Char n ≠ '.' :=
  fun h => absurd (h ▸ b64Char_mem n) (by decide)

theorem b64Char_ne_dash (n : Nat) : b64Char n ≠ '-' :=
  fun h => absurd (h ▸ b64Char_mem n) (by decide)

theorem b64Char_ne_us (n : Nat) : b64Char n ≠ '_' :=
  fun h => absurd (h ▸ b64Char_mem n) (by decide)

theorem b64Index_b64Char {n : Nat} (h : n < 64) : b64Index (b64Char n) = some n := by
  have key : ∀ m : Fin 64, b64Index (b64Char m.val) = some m.val := by decide
  exact key ⟨n, h⟩

theorem urlToStdChar_urlMapChar {c : Char} (h1 : c ≠ '-') (h2 : c ≠ '_') :
    urlToStdChar (urlMapChar c) = c := by
  by_cases h3 : c = '+'
  · subst h3; rfl
  · by_cases h4 : c = '/'
    · subst h4; rfl
    · simp [urlMapChar, urlToStdChar, h1, h2, h3, h4]

theorem urlMapChar_eq_eq {c : Char} : urlMapChar c = '=' ↔ c = '=' := by
  unfold urlMapChar
  by_cases h3 : c = '+'
  · subst h3; simp
  · by_cases h4 : c = '/'
    · subst h4; simp
    · simp [h3, h4]

theorem base64Encode_mem_all (bs : List Nat) :
    ∀ c ∈ base64Encode bs, c ∈ stdAlphabet ∨ c = '=' := by
  induction bs using base64Encode.induct with
  | case1 => simp [base64Encode]
  | case2 a =>
      simp only [base64Encode, List.mem_cons, List.mem_singleton]
      intro c h
      rcases h with h | h | h | h
      · exact Or.inl (h ▸ b64Char_mem _)
      · exact Or.inl (h ▸ b64Char_mem _)
      · exact Or.inr h
      · simp at h; exact Or.inr h
  | case3 a b =>
      simp only [base64Encode, List.mem_cons, List.mem_singleton]
      intro c h
      rcases h with h | h | h | h
      · exact Or.inl (h ▸ b64Char_mem _)
      · exact Or.inl (h ▸ b64Char_mem _)
      · exact Or.inl (h ▸ b64Char_mem _)
      · simp at h; exact Or.inr h
  | case4 a b c' rest ih =>
      simp only [base64Encode, List.mem_cons]
      intro c h
      rcases h with h | h | h | h | h
      · exact Or.inl (h ▸ b64Char_mem _)
      · exact Or.inl (h ▸ b64Char_mem _)
      · exact Or.inl (h ▸ b64Char_mem _)
      · exact Or.inl (h ▸ b64Char_mem _)
      · exact ih c h

theorem base64Encode_mem {bs : List Nat} {c : Char} (h : c ∈ base64Encode bs) :
    c ∈ stdAlphabet ∨ c = '=' := base64Encode_mem_all bs c h

theorem b64ToUrl_mem {cs : List Char} {c : Char} (h : c ∈ b64ToUrl cs) :
    (∃ a ∈ cs, c = urlMapChar a) ∧ c ≠ '=' := by
  unfold b64ToUrl at h
  simp [List.mem_filter, List.mem_map] at h
  obtain ⟨⟨a, ha, hc⟩, hne⟩ := h
  exact ⟨⟨a, ha, hc.symm⟩, hne⟩

theorem b64ToUrl_encode_no_dot {bs : List Nat} {c : Char}
    (h : c ∈ b64ToUrl (base64Encode bs)) : c ≠ '.' := by
  obtain ⟨⟨a, ha, rfl⟩, _⟩ := b64ToUrl_mem h
  rcases base64Encode_mem ha with hm | hm
  · by_cases h1 : a = '+'
    · subst h1; decide
    · by_cases h2 : a = '/'
      · subst h2; decide
      · simp [urlMapChar, h1, h2]
        intro hd
        exact absurd (hd ▸ hm) (by decide)
  · subst hm; decide

theorem urlToStd_b64ToUrl_encode (bs : List Nat) :
    urlToStd (b64ToUrl (base64Encode bs)) = (base64Encode bs).filter (fun c => c ≠ '=') := by
  have gen : ∀ l : List Char, (∀ c ∈ l, c ∈ stdAlphabet ∨ c = '=') →
      urlToStd (b64ToUrl l) = l.filter (fun c => c ≠ '=') := by
    intro l hl
    induction l with
    | nil => rfl
    | cons c t ih =>
        have hc := hl c (by simp)
        have ht : ∀ x ∈ t, x ∈ stdAlphabet ∨ x = '=' := fun x hx => hl x (by simp [hx])
        by_cases he : c = '='
        · subst he
          simp [b64ToUrl, urlToStd, List.filter] at *
          simpa [urlMapChar] using ih ht
        · have hdash : c ≠ '-' := by
            rcases hc with hm | hm
            · intro hd; exact absurd (hd ▸ hm) (by decide)
            · exact absurd hm he
          have hus : c ≠ '_' := by
            rcases hc with hm | hm
            · intro hd; exact absurd (hd ▸ hm) (by decide)
            · exact absurd hm he
          have hmape : urlMapChar c ≠ '=' := fun hx => he (urlMapChar_eq_eq.mp hx)
          simp [b64ToUrl, urlToStd, List.filter, hmape, he] at *
          exact ⟨urlToStdChar_urlMapChar hdash hus, ih ht⟩
  exact gen _ (fun c hc => base64Encode_mem hc)

theorem encode_filter_ne_nil {rest : List Nat} (h : rest ≠ []) :
    (base64Encode rest).filter (fun c => c ≠ '=') ≠ [] := by
  match rest with
  | [x] => simp [base64Encode, List.filter, b64Char_ne_eq]
  | [x, y] => simp [base64Encode, List.filter, b64Char_ne_eq]
  | x :: y :: z :: t => simp [base64Encode, List.filter, b64Char_ne_eq]

theorem filter_ne_cons (c : Char) (l : List Char) (h : c ≠ '=') :
    List.filter (fun x => x ≠ '=') (c :: l) = c :: List.filter (fun x => x ≠ '=') l := by
  simp [List.filter_cons, h]

theorem padB64_cons4 (k1 k2 k3 k4 : Char) (X : List Char) :
    padB64 (k1 :: k2 :: k3 :: k4 :: X) = k1 :: k2 :: k3 :: k4 :: padB64 X := by
  unfold padB64
  simp only [List.length_cons, List.cons_append]
  rw [show (4 - (X.length + 1 + 1 + 1 + 1) % 4) % 4 = (4 - X.length % 4) % 4 by omega]

theorem decode_filter_pad (bs : List Nat) (h : ∀ b ∈ bs, b < 256) :
    b64DecodePadded (padB64 ((base64Encode bs).filter (fun x => x ≠ '='))) = some bs := by
  induction bs using base64Encode.induct with
  | case1 => rfl
  | case2 a =>
      have ha : a < 256 := h a (by simp)
      rw [show base64Encode [a] = [b64Char (a / 4), b64Char (a % 4 * 16), '=', '='] from rfl]
      rw [filter_ne_cons _ _ (b64Char_ne_eq _), filter_ne_cons _ _ (b64Char_ne_eq _)]
      rw [show List.filter (fun x => x ≠ '=') ['=', '='] = [] by simp]
      rw [show padB64 [b64Char (a / 4), b64Char (a % 4 * 16)] =
        [b64Char (a / 4), b64Char (a % 4 * 16), '=', '='] by simp [padB64]]
      simp only [b64DecodePadded]
      rw [b64Index_b64Char (by omega), b64Index_b64Char (by omega)]
      simp only [if_true, and_self, reduceIte]
      simp
      omega
  | case3 a b =>
      have ha : a < 256 := h a (by simp)
      have hb : b < 256 := h b (by simp)
      rw [show base64Encode [a, b] =
        [b64Char (a / 4), b64Char (a % 4 * 16 + b / 16), b64Char (b % 16 * 4), '='] from rfl]
      rw [filter_ne_cons _ _ (b64Char_ne_eq _), filter_ne_cons _ _ (b64Char_ne_eq _),
        filter_ne_cons _ _ (b64Char_ne_eq _)]
      rw [show List.filter (fun x => x ≠ '=') ['='] = [] by simp]
      rw [show padB64 [b64Char (a / 4), b64Char (a % 4 * 16 + b / 16), b64Char (b % 16 * 4)] =
        [b64Char (a / 4), b64Char (a % 4 * 16 + b / 16), b64Char (b % 16 * 4), '='] by
          simp [padB64]]
      simp only [b64DecodePadded]
      rw [b64Index_b64Char (by omega), b64Index_b64Char (by omega), b64Index_b64Char (by omega)]
      simp [b64Char_ne_eq]
      constructor <;> omega
  | case4 a b c rest ih =>
      have ha : a < 256 := h a (by simp)
      have hb : b < 256 := h b (by simp)
      have hc : c < 256 := h c (by simp)
      have hrest : ∀ x ∈ rest, x < 256 := fun x hx => h x (by simp [hx])
      rw [show base64Encode (a :: b :: c :: rest) =
        b64Char (a / 4) :: b64Char (a % 4 * 16 + b / 16) ::
        b64Char (b % 16 * 4 + c / 64) :: b64Char (c % 64) :: base64Encode rest from rfl]
      rw [filter_ne_cons _ _ (b64Char_ne_eq _), filter_ne_cons _ _ (b64Char_ne_eq _),
        filter_ne_cons _ _ (b64Char_ne_eq _), filter_ne_cons _ _ (b64Char_ne_eq _)]
      rcases eq_or_ne rest [] with hre | hre
      · subst hre
        rw [show List.filter (fun x => x ≠ '=') (base64Encode []) = [] by rfl]
        rw [show ∀ k1 k2 k3 k4 : Char, padB64 [k1, k2, k3, k4] = [k1, k2, k3, k4] by
          intro k1 k2 k3 k4; simp [padB64]]
        simp only [b64DecodePadded]
        rw [b64Index_b64Char (by omega), b64Index_b64Char (by omega),
          b64Index_b64Char (by omega), b64Index_b64Char (by omega)]
        simp [b64Char_ne_eq]
        refine ⟨by omega, by omega, by omega⟩
      · have hX := encode_filter_ne_nil hre
        rw [padB64_cons4]
        have hpadX : padB64 ((base64Encode rest).filter (fun x => x ≠ '=')) ≠ [] := by
          rcases hXs : (base64Encode rest).filter (fun x => x ≠ '=') with _ | ⟨x, xs⟩
          · exact absurd hXs hX
          · simp [padB64]
        have hstep : b64DecodePadded (b64Char (a / 4) :: b64Char (a % 4 * 16 + b / 16) ::
            b64Char (b % 16 * 4 + c / 64) :: b64Char (c % 64) ::
            padB64 ((base64Encode rest).filter (fun x => x ≠ '='))) =
            (b64DecodePadded (padB64 ((base64Encode rest).filter (fun x => x ≠ '=')))).map
              (fun ds => (a / 4 * 4 + (a % 4 * 16 + b / 16) / 16) ::
                ((a % 4 * 16 + b / 16) % 16 * 16 + (b % 16 * 4 + c / 64) / 4) ::
                ((b % 16 * 4 + c / 64) % 4 * 64 + c % 64) :: ds) := by
          simp only [b64DecodePadded]
          rw [if_neg hpadX, b64Index_b64Char (by omega), b64Index_b64Char (by omega),
            b64Index_b64Char (by omega), b64Index_b64Char (by omega)]
        rw [hstep, ih hrest]
        simp only [Option.map_some', Option.some.injEq, List.cons.injEq]
        refine ⟨by omega, by omega, by omega, trivial⟩

theorem nodeB64Val_b64Char {m : Nat} (hm : m < 64) :
    nodeB64Val (b64Char m) = some m := by
  unfold nodeB64Val
  rw [if_neg (b64Char_ne_dash m), if_neg (b64Char_ne_us m)]
  exact b64Index_b64Char hm

theorem nodeB64Digits_cons_char {m : Nat} (hm : m < 64) (Y : List Char) :
    nodeB64Digits (b64Char m :: Y) = m :: nodeB64Digits Y := by
  simp only [nodeB64Digits]
  rw [if_neg (b64Char_ne_eq m), nodeB64Val_b64Char hm]

theorem nodeDecode_filter_pad (bs : List Nat) (h : ∀ b ∈ bs, b < 256) :
    nodeB64Decode (padB64 ((base64Encode bs).filter (fun x => x ≠ '='))) = bs := by
  induction bs using base64Encode.induct with
  | case1 => rfl
  | case2 a =>
      have ha : a < 256 := h a (by simp)
      rw [show base64Encode [a] = [b64Char (a / 4), b64Char (a % 4 * 16), '=', '='] from rfl]
      rw [filter_ne_cons _ _ (b64Char_ne_eq _), filter_ne_cons _ _ (b64Char_ne_eq _)]
      rw [show List.filter (fun x => x ≠ '=') ['=', '='] = [] by simp]
      rw [show padB64 [b64Char (a / 4), b64Char (a % 4 * 16)] =
        [b64Char (a / 4), b64Char (a % 4 * 16), '=', '='] by simp [padB64]]
      unfold nodeB64Decode
      rw [nodeB64Digits_cons_char (by omega), nodeB64Digits_cons_char (by omega),
        show nodeB64Digits ['=', '='] = [] from rfl]
      simp only [b64DigitsToBytes, List.cons.injEq, and_true]
      omega
  | case3 a b =>
      have ha : a < 256 := h a (by simp)
      have hb : b < 256 := h b (by simp)
      rw [show base64Encode [a, b] =
        [b64Char (a / 4), b64Char (a % 4 * 16 + b / 16), b64Char (b % 16 * 4), '='] from rfl]
      rw [filter_ne_cons _ _ (b64Char_ne_eq _), filter_ne_cons _ _ (b64Char_ne_eq _),
        filter_ne_cons _ _ (b64Char_ne_eq _)]
      rw [show List.filter (fun x => x ≠ '=') ['='] = [] by simp]
      rw [show padB64 [b64Char (a / 4), b64Char (a % 4 * 16 + b / 16), b64Char (b % 16 * 4)] =
        [b64Char (a / 4), b64Char (a % 4 * 16 + b / 16), b64Char (b % 16 * 4), '='] by
          simp [padB64]]
      unfold nodeB64Decode
      rw [nodeB64Digits_cons_char (by omega), nodeB64Digits_cons_char (by omega),
        nodeB64Digits_cons_char (by omega), show nodeB64Digits ['='] = [] from rfl]
      simp only [b64DigitsToBytes, List.cons.injEq, and_true]
      constructor <;> omega
  | case4 a b c rest ih =>
      have ha : a < 256 := h a (by simp)
      have hb : b < 256 := h b (by simp)
      have hc : c < 256 := h c (by simp)
      have hrest : ∀ x ∈ rest, x < 256 := fun x hx => h x (by simp [hx])
      rw [show base64Encode (a :: b :: c :: rest) =
        b64Char (a / 4) :: b64Char (a % 4 * 16 + b / 16) ::
        b64Char (b % 16 * 4 + c / 64) :: b64Char (c % 64) :: base64Encode rest from rfl]
      rw [filter_ne_cons _ _ (b64Char_ne_eq _), filter_ne_cons _ _ (b64Char_ne_eq _),
        filter_ne_cons _ _ (b64Char_ne_eq _), filter_ne_cons _ _ (b64Char_ne_eq _)]
      rw [padB64_cons4]
      unfold nodeB64Decode
      rw [nodeB64Digits_cons_char (by omega), nodeB64Digits_cons_char (by omega),
        nodeB64Digits_cons_char (by omega), nodeB64Digits_cons_char (by omega)]
      simp only [b64DigitsToBytes]
      rw [show b64DigitsToBytes (nodeB64Digits
        (padB64 ((base64Encode rest).filter (fun x => x ≠ '=')))) = rest from ih hrest]
      simp only [List.cons.injEq, and_true]
      refine ⟨by omega, by omega, by omega⟩

theorem base64urlDecode_b64ToUrl_encode (bs : List Nat) (h : ∀ b ∈ bs, b < 256) :
    base64urlDecode (b64ToUrl (base64Encode bs)) = some bs := by
  unfold base64urlDecode
  rw [urlToStd_b64ToUrl_encode]
  rw [nodeDecode_filter_pad bs h]

theorem b64ToUrl_encode_inj {bs1 bs2 : List Nat} (h1 : ∀ b ∈ bs1, b < 256)
    (h2 : ∀ b ∈ bs2, b < 256)
    (he : b64ToUrl (base64Encode bs1) = b64ToUrl (base64Encode bs2)) : bs1 = bs2 := by
  have e1 := base64urlDecode_b64ToUrl_encode bs1 h1
  rw [he, base64urlDecode_b64ToUrl_encode bs2 h2] at e1
  exact (Option.some.injEq _ _).mp e1.symm

theorem urlToStdChar_eq_eq {c : Char} : urlToStdChar c = '=' ↔ c = '=' := by
  unfold urlToStdChar
  by_cases h1 : c = '-'
  · subst h1; simp
  · by_cases h2 : c = '_'
    · subst h2; simp
    · simp [h1, h2]

theorem mem_of_getLast?_eq {s : List Char} {x : Char} (h : s.getLast? = some x) : x ∈ s := by
  induction s with
  | nil => simp at h
  | cons a t ih =>
      cases t with
      | nil => simp at h; simp [h]
      | cons b u =>
          rw [List.getLast?_cons_cons] at h
          exact List.mem_cons_of_mem a (ih h)

theorem stripTrailingEq_no_eq {s : List Char} (h : '=' ∉ s) : stripTrailingEq s = s := by
  unfold stripTrailingEq
  have hg : s.getLast? ≠ some '=' := fun hx => h (mem_of_getLast?_eq hx)
  rw [if_neg hg, if_neg hg]

theorem stdAlphabet_not_ws : ∀ c ∈ stdAlphabet, isB64Ws c = false := by decide

theorem atobDecode_filter_pad (bs : List Nat) (h : ∀ b ∈ bs, b < 256) :
    atobDecode ((base64Encode bs).filter (fun x => x ≠ '=')) = some bs := by
  have hmem : ∀ c ∈ (base64Encode bs).filter (fun x => x ≠ '='), c ∈ stdAlphabet := by
    intro c hc
    rcases List.mem_filter.mp hc with ⟨hin, hne⟩
    rcases base64Encode_mem hin with hA | hE
    · exact hA
    · exact absurd hE (by simpa using hne)
  have hws : ((base64Encode bs).filter (fun x => x ≠ '=')).filter
      (fun c => !isB64Ws c) = (base64Encode bs).filter (fun x => x ≠ '=') := by
    refine List.filter_eq_self.mpr (fun c hc => ?_)
    rw [stdAlphabet_not_ws c (hmem c hc)]
    rfl
  have hne : '=' ∉ (base64Encode bs).filter (fun x => x ≠ '=') := by
    intro hx
    have := (List.mem_filter.mp hx).2
    simp at this
  simp only [atobDecode]
  rw [hws, stripTrailingEq_no_eq hne, ite_self]
  have hcon : ((base64Encode bs).filter (fun x => x ≠ '=')).contains '=' = false := by
    by_contra hx
    simp only [Bool.not_eq_false, List.contains_eq_any_beq, List.any_eq_true] at hx
    obtain ⟨c, hc, hb⟩ := hx
    exact hne (beq_iff_eq.mp hb ▸ hc)
  simp only [hcon, Bool.false_eq_true, if_false]
  exact decode_filter_pad bs h

theorem atobDecode_url_encode (bs : List Nat) (h : ∀ b ∈ bs, b < 256) :
    atobDecode (urlToStd (b64ToUrl (base64Encode bs))) = some bs := by
  rw [urlToStd_b64ToUrl_encode]
  exact atobDecode_filter_pad bs h

theorem b64ToUrl_encode_dot_not_mem (bs : List Nat) : '.' ∉ b64ToUrl (base64Encode bs) :=
  fun hx => b64ToUrl_encode_no_dot hx rfl

theorem splitOnDot_no_dot {x : List Char} (h : '.' ∉ x) : splitOnDot x = [x] := by
  induction x with
  | nil => rfl
  | cons c t ih =>
      have hc : c ≠ '.' := fun hx => h (by simp [hx])
      have ht : '.' ∉ t := fun hx => h (by simp [hx])
      simp [splitOnDot, hc, ih ht]

theorem splitOnDot_append {x y : List Char} (h : '.' ∉ x) :
    splitOnDot (x ++ '.' :: y) = x :: splitOnDot y := by
  induction x with
  | nil => simp [splitOnDot]
  | cons c t ih =>
      have hc : c ≠ '.' := fun hx => h (by simp [hx])
      have ht : '.' ∉ t := fun hx => h (by simp [hx])
      simp [splitOnDot, hc, ih ht]

theorem splitOnDot_three {h p s : List Char} (hh : '.' ∉ h) (hp : '.' ∉ p) (hs : '.' ∉ s) :
    splitOnDot (h ++ '.' :: (p ++ '.' :: s)) = [h, p, s] := by
  rw [splitOnDot_append hh, splitOnDot_append hp, splitOnDot_no_dot hs]

theorem bytesToChars_strBytes (s : List Char) : bytesToChars (strBytes s) = s := by
  unfold bytesToChars strBytes
  rw [List.map_map]
  have hco : (Char.ofNat ∘ Char.toNat) = id := funext Char.ofNat_toNat
  rw [hco, List.map_id]

theorem strBytes_lt_256 {s : List Char} (hw : wfStr s) : ∀ b ∈ strBytes s, b < 256 := by
  intro b hb
  unfold strBytes at hb
  simp [List.mem_map] at hb
  obtain ⟨c, hc, rfl⟩ := hb
  have := (hw c hc).2.2.2
  omega

theorem skipWs_cons_not_ws {c : Char} {t : List Char} (h : isWsChar c = false) :
    skipWs (c :: t) = c :: t := by
  unfold skipWs
  rw [List.dropWhile_cons]
  simp [h]

theorem isWsChar_of_digit {c : Char} (h : c.isDigit = true) : isWsChar c = false := by
  unfold isWsChar
  by_contra hx
  simp only [Bool.not_eq_false, Bool.or_eq_true, decide_eq_true_eq] at hx
  rcases hx with ((h1 | h1) | h1) | h1 <;> subst h1 <;> simp [Char.isDigit] at h

theorem jstrBody_append {s rest : List Char} (h : wfStr s) :
    jstrBody (s ++ '"' :: rest) = some (s, rest) := by
  induction s with
  | nil => simp [jstrBody]
  | cons c t ih =>
      obtain ⟨h1, h2, h3, _⟩ := h c (by simp)
      have ht : wfStr t := fun x hx => h x (by simp [hx])
      have h5 : ¬(c = '\\' ∨ c.toNat < 32) := by
        push_neg
        exact ⟨h2, by omega⟩
      simp [jstrBody, h1, h5, ih ht]

theorem parseJString_lit {s rest : List Char} (h : wfStr s) :
    parseJString (jstrLit s ++ rest) = some (s, rest) := by
  rw [show jstrLit s ++ rest = '"' :: (s ++ '"' :: rest) by simp [jstrLit]]
  show jstrBody (s ++ '"' :: rest) = some (s, rest)
  exact jstrBody_append h

theorem charOfNat_digit_toNat {d : Nat} (h : d < 10) : (Char.ofNat (48 + d)).toNat = 48 + d := by
  interval_cases d <;> decide

theorem charOfNat_digit_isDigit {d : Nat} (h : d < 10) : (Char.ofNat (48 + d)).isDigit = true := by
  interval_cases d <;> decide

theorem digitsToNat_append_digit (ds : List Char) (c : Char) :
    digitsToNat (ds ++ [c]) = digitsToNat ds * 10 + (c.toNat - 48) := by
  unfold digitsToNat
  rw [List.foldl_append]
  rfl

theorem natDigitsGo_spec :
    ∀ (n fuel : Nat) (acc : List Char), n < fuel →
      ∃ ds, natDigitsGo fuel n acc = ds ++ acc ∧ ds ≠ [] ∧
        (∀ c ∈ ds, c.isDigit = true) ∧ (∀ c ∈ ds, c.toNat < 128) ∧ digitsToNat ds = n := by
  intro n
  induction n using Nat.strong_induction_on with
  | _ n ih =>
      intro fuel acc hf
      obtain ⟨f, rfl⟩ : ∃ f, fuel = f + 1 := ⟨fuel - 1, by omega⟩
      by_cases h10 : n < 10
      · refine ⟨[Char.ofNat (48 + n)], ?_, by simp, ?_, ?_, ?_⟩
        · simp [natDigitsGo, h10]
        · intro c hc
          simp at hc
          subst hc
          exact charOfNat_digit_isDigit h10
        · intro c hc
          simp at hc
          subst hc
          rw [charOfNat_digit_toNat h10]
          omega
        · unfold digitsToNat
          simp [charOfNat_digit_toNat h10]
      · have hdiv : n / 10 < n := Nat.div_lt_self (by omega) (by omega)
        obtain ⟨ds, hgo, hne, hdig, hlt, hval⟩ :=
          ih (n / 10) hdiv f (Char.ofNat (48 + n % 10) :: acc) (by omega)
        refine ⟨ds ++ [Char.ofNat (48 + n % 10)], ?_, by simp [hne], ?_, ?_, ?_⟩
        · simp only [natDigitsGo, if_neg h10]
          rw [hgo]
          simp
        · intro c hc
          rcases List.mem_append.mp hc with hm | hm
          · exact hdig c hm
          · simp at hm
            subst hm
            exact charOfNat_digit_isDigit (Nat.mod_lt _ (by omega))
        · intro c hc
          rcases List.mem_append.mp hc with hm | hm
          · exact hlt c hm
          · simp at hm
            subst hm
            rw [charOfNat_digit_toNat (Nat.mod_lt _ (by omega))]
            omega
        · rw [digitsToNat_append_digit, hval,
            charOfNat_digit_toNat (Nat.mod_lt _ (by omega))]
          omega

theorem natDigits_spec (n : Nat) :
    natDigits n ≠ [] ∧ (∀ c ∈ natDigits n, c.isDigit = true) ∧
      (∀ c ∈ natDigits n, c.toNat < 128) ∧ digitsToNat (natDigits n) = n := by
  obtain ⟨ds, hgo, hne, hdig, hlt, hval⟩ := natDigitsGo_spec n (n + 1) [] (by omega)
  unfold natDigits
  rw [hgo]
  simp only [List.append_nil]
  exact ⟨hne, hdig, hlt, hval⟩

theorem natDigits_all_digit (n : Nat) : ∀ c ∈ natDigits n, c.isDigit = true :=
  (natDigits_spec n).2.1

theorem natDigits_ne_nil (n : Nat) : natDigits n ≠ [] :=
  (natDigits_spec n).1

theorem natDigits_toNat_lt (n : Nat) : ∀ ch ∈ natDigits n, ch.toNat < 128 :=
  (natDigits_spec n).2.2.1

theorem digitsToNat_natDigits (n : Nat) : digitsToNat (natDigits n) = n :=
  (natDigits_spec n).2.2.2

theorem takeWhile_digits (ds rest : List Char) (hd : ∀ c ∈ ds, c.isDigit = true)
    (hr : ∀ c ∈ rest.head?, c.isDigit = false) :
    (ds ++ rest).takeWhile Char.isDigit = ds ∧ (ds ++ rest).dropWhile Char.isDigit = rest := by
  induction ds with
  | nil =>
      simp only [List.nil_append]
      cases rest with
      | nil => simp
      | cons c t =>
          have := hr c (by simp)
          rw [List.takeWhile_cons, List.dropWhile_cons]
          simp [this]
  | cons c t ih =>
      have hc := hd c (by simp)
      have ht : ∀ x ∈ t, x.isDigit = true := fun x hx => hd x (by simp [hx])
      obtain ⟨ih1, ih2⟩ := ih ht
      rw [List.cons_append, List.takeWhile_cons, List.dropWhile_cons]
      simp [hc, ih1, ih2]

theorem parseJNum_natDigits (n : Nat) (rest : List Char)
    (hr : ∀ c ∈ rest.head?, c.isDigit = false ∧ c ≠ '.' ∧ c ≠ 'e' ∧ c ≠ 'E') :
    parseJNum (natDigits n ++ rest) = some (n, rest) := by
  obtain ⟨ht, hdw⟩ := takeWhile_digits (natDigits n) rest (natDigits_all_digit n)
    (fun c hc => (hr c hc).1)
  unfold parseJNum
  rw [ht, hdw, if_neg (by simpa using natDigits_ne_nil n)]
  cases rest with
  | nil => simp [digitsToNat_natDigits]
  | cons c t =>
      obtain ⟨_, h2, h3, h4⟩ := hr c (by simp)
      simp [h2, h3, h4, digitsToNat_natDigits]

theorem parseJValue_str {s rest : List Char} (h : wfStr s) :
    parseJValue (jstrLit s ++ rest) = some (JVal.jstr s, rest) := by
  rw [show jstrLit s ++ rest = '"' :: (s ++ '"' :: rest) by simp [jstrLit]]
  simp only [parseJValue, if_true]
  rw [show ('"' : Char) :: (s ++ '"' :: rest) = jstrLit s ++ rest by simp [jstrLit]]
  rw [parseJString_lit h]
  rfl

theorem parseJValue_true (rest : List Char) :
    parseJValue ('t' :: 'r' :: 'u' :: 'e' :: rest) = some (JVal.jbool true, rest) := by
  rfl

theorem parseJValue_false (rest : List Char) :
    parseJValue ('f' :: 'a' :: 'l' :: 's' :: 'e' :: rest) = some (JVal.jbool false, rest) := by
  rfl

theorem digit_head_facts {c : Char} (h : c.isDigit = true) :
    c ≠ '"' ∧ c ≠ 't' ∧ c ≠ 'f' ∧ isWsChar c = false := by
  refine ⟨?_, ?_, ?_, isWsChar_of_digit h⟩ <;>
    intro hx <;> subst hx <;> simp [Char.isDigit] at h

theorem parseJValue_num (n : Nat) (rest : List Char)
    (hr : ∀ c ∈ rest.head?, c.isDigit = false ∧ c ≠ '.' ∧ c ≠ 'e' ∧ c ≠ 'E') :
    parseJValue (natDigits n ++ rest) = some (JVal.jnum n, rest) := by
  obtain ⟨d, ds, hds⟩ : ∃ d ds, natDigits n = d :: ds := by
    cases hx : natDigits n with
    | nil => exact absurd hx (natDigits_ne_nil n)
    | cons d ds => exact ⟨d, ds, rfl⟩
  have hdd : d.isDigit = true := natDigits_all_digit n d (by rw [hds]; simp)
  obtain ⟨h1, h2, h3, _⟩ := digit_head_facts hdd
  rw [hds, List.cons_append]
  simp only [parseJValue]
  rw [if_neg h1, if_neg h2, if_neg h3]
  rw [← List.cons_append, ← hds, parseJNum_natDigits n rest hr]
  rfl

theorem parseMembers_strStep (f : Nat) (k v rest : List Char) (acc : Decoded)
    (hk : wfStr k) (hv : wfStr v) :
    parseMembers (f + 1) (jstrLit k ++ ':' :: (jstrLit v ++ ',' :: rest)) acc =
    parseMembers f rest (updField acc k (JVal.jstr v)) := by
  have hsk : skipWs (jstrLit k ++ ':' :: (jstrLit v ++ ',' :: rest)) =
      jstrLit k ++ ':' :: (jstrLit v ++ ',' :: rest) := by
    rw [show jstrLit k ++ ':' :: (jstrLit v ++ ',' :: rest) =
      '"' :: (k ++ '"' :: ':' :: (jstrLit v ++ ',' :: rest)) by simp [jstrLit]]
    exact skipWs_cons_not_ws (by decide)
  have hsv : skipWs (jstrLit v ++ ',' :: rest) = jstrLit v ++ ',' :: rest := by
    rw [show jstrLit v ++ ',' :: rest = '"' :: (v ++ '"' :: ',' :: rest) by simp [jstrLit]]
    exact skipWs_cons_not_ws (by decide)
  simp only [parseMembers, hsk, parseJString_lit hk,
    skipWs_cons_not_ws (show isWsChar ':' = false by decide), hsv, parseJValue_str hv,
    skipWs_cons_not_ws (show isWsChar ',' = false by decide)]
  simp

theorem skipWs_natDigits (n : Nat) (rest : List Char) :
    skipWs (natDigits n ++ rest) = natDigits n ++ rest := by
  obtain ⟨d, ds, hds⟩ : ∃ d ds, natDigits n = d :: ds := by
    cases hx : natDigits n with
    | nil => exact absurd hx (natDigits_ne_nil n)
    | cons d ds => exact ⟨d, ds, rfl⟩
  rw [hds, List.cons_append]
  exact skipWs_cons_not_ws (isWsChar_of_digit (natDigits_all_digit n d (by rw [hds]; simp)))

theorem parseMembers_boolStep (f : Nat) (k : List Char) (b : Bool) (rest : List Char)
    (acc : Decoded) (hk : wfStr k) :
    parseMembers (f + 1) (jstrLit k ++ ':' ::
      ((if b then 't' :: 'r' :: 'u' :: 'e' :: [] else 'f' :: 'a' :: 'l' :: 's' :: 'e' :: []) ++
        ',' :: rest)) acc =
    parseMembers f rest (updField acc k (JVal.jbool b)) := by
  have hsk : ∀ X : List Char, skipWs (jstrLit k ++ ':' :: X) = jstrLit k ++ ':' :: X := by
    intro X
    rw [show jstrLit k ++ ':' :: X = '"' :: (k ++ '"' :: ':' :: X) by simp [jstrLit]]
    exact skipWs_cons_not_ws (by decide)
  cases b
  · rw [if_neg (by decide)]
    simp only [List.cons_append, List.nil_append]
    simp only [parseMembers, hsk, parseJString_lit hk,
      skipWs_cons_not_ws (show isWsChar ':' = false by decide),
      skipWs_cons_not_ws (show isWsChar 'f' = false by decide), parseJValue_false,
      skipWs_cons_not_ws (show isWsChar ',' = false by decide)]
    simp
  · rw [if_pos rfl]
    simp only [List.cons_append, List.nil_append]
    simp only [parseMembers, hsk, parseJString_lit hk,
      skipWs_cons_not_ws (show isWsChar ':' = false by decide),
      skipWs_cons_not_ws (show isWsChar 't' = false by decide), parseJValue_true,
      skipWs_cons_not_ws (show isWsChar ',' = false by decide)]
    simp

theorem parseMembers_natStep (f : Nat) (k : List Char) (n : Nat) (rest : List Char)
    (acc : Decoded) (hk : wfStr k) :
    parseMembers (f + 1) (jstrLit k ++ ':' :: (natDigits n ++ ',' :: rest)) acc =
    parseMembers f rest (updField acc k (JVal.jnum n)) := by
  have hsk : skipWs (jstrLit k ++ ':' :: (natDigits n ++ ',' :: rest)) =
      jstrLit k ++ ':' :: (natDigits n ++ ',' :: rest) := by
    rw [show jstrLit k ++ ':' :: (natDigits n ++ ',' :: rest) =
      '"' :: (k ++ '"' :: ':' :: (natDigits n ++ ',' :: rest)) by simp [jstrLit]]
    exact skipWs_cons_not_ws (by decide)
  simp only [parseMembers, hsk, parseJString_lit hk,
    skipWs_cons_not_ws (show isWsChar ':' = false by decide), skipWs_natDigits,
    parseJValue_num n (',' :: rest) (by intro c hc; simp at hc; subst hc; refine ⟨by decide, by decide, by decide, by decide⟩),
    skipWs_cons_not_ws (show isWsChar ',' = false by decide)]
  simp

theorem parseMembers_natLast (f : Nat) (k : List Char) (n : Nat) (acc : Decoded)
    (hk : wfStr k) :
    parseMembers (f + 1) (jstrLit k ++ ':' :: (natDigits n ++ '}' :: [])) acc =
    some (updField acc k (JVal.jnum n)) := by
  have hsk : skipWs (jstrLit k ++ ':' :: (natDigits n ++ '}' :: [])) =
      jstrLit k ++ ':' :: (natDigits n ++ '}' :: []) := by
    rw [show jstrLit k ++ ':' :: (natDigits n ++ '}' :: []) =
      '"' :: (k ++ '"' :: ':' :: (natDigits n ++ '}' :: [])) by simp [jstrLit]]
    exact skipWs_cons_not_ws (by decide)
  simp only [parseMembers, hsk, parseJString_lit hk,
    skipWs_cons_not_ws (show isWsChar ':' = false by decide), skipWs_natDigits,
    parseJValue_num n ('}' :: []) (by intro c hc; simp at hc; subst hc; refine ⟨by decide, by decide, by decide, by decide⟩),
    skipWs_cons_not_ws (show isWsChar '}' = false by decide)]
  simp [skipWs]

theorem parseMembers_mono {f : Nat} :
    ∀ {g cs acc d}, f ≤ g → parseMembers f cs acc = some d → parseMembers g cs acc = some d := by
  induction f with
  | zero =>
      intro g cs acc d _ h
      simp [parseMembers] at h
  | succ f ih =>
      intro g cs acc d hfg h
      obtain ⟨g', rfl⟩ : ∃ g', g = g' + 1 := ⟨g - 1, by omega⟩
      simp only [parseMembers] at h ⊢
      rcases hx : parseJString (skipWs cs) with _ | ⟨k, r1⟩ <;> simp only [hx] at h ⊢
      · exact absurd h (by simp)
      · rcases hy : skipWs r1 with _ | ⟨c, r2⟩ <;> simp only [hy] at h ⊢
        · exact absurd h (by simp)
        · by_cases hc : c = ':'
          case neg => rw [if_neg hc] at h; exact absurd h (by simp)
          subst hc
          rw [if_pos rfl] at h ⊢
          rcases hz : parseJValue (skipWs r2) with _ | ⟨v, r3⟩ <;> simp only [hz] at h ⊢
          · exact absurd h (by simp)
          · rcases hw : skipWs r3 with _ | ⟨c2, r4⟩ <;> simp only [hw] at h ⊢
            · exact absurd h (by simp)
            · by_cases hc2 : c2 = ','
              case neg => rw [if_neg hc2] at h ⊢; exact h
              subst hc2
              rw [if_pos rfl] at h ⊢
              exact ih (by omega) h

theorem parseMembers_strMember (f : Nat) (k v rest : List Char) (acc : Decoded)
    (hk : wfStr k) (hv : wfStr v) :
    parseMembers (f + 1) (strMemberThen k v rest) acc =
    parseMembers f rest (updField acc k (JVal.jstr v)) :=
  parseMembers_strStep f k v rest acc hk hv

theorem parseMembers_boolMember (f : Nat) (k : List Char) (b : Bool) (rest : List Char)
    (acc : Decoded) (hk : wfStr k) :
    parseMembers (f + 1) (boolMemberThen k b rest) acc =
    parseMembers f rest (updField acc k (JVal.jbool b)) :=
  parseMembers_boolStep f k b rest acc hk

theorem parseMembers_natMember (f : Nat) (k : List Char) (n : Nat) (rest : List Char)
    (acc : Decoded) (hk : wfStr k) :
    parseMembers (f + 1) (natMemberThen k n rest) acc =
    parseMembers f rest (updField acc k (JVal.jnum n)) :=
  parseMembers_natStep f k n rest acc hk

theorem parseMembers_natMemberLast (f : Nat) (k : List Char) (n : Nat) (acc : Decoded)
    (hk : wfStr k) :
    parseMembers (f + 1) (natMemberLast k n) acc = some (updField acc k (JVal.jnum n)) :=
  parseMembers_natLast f k n acc hk

theorem parsePayloadChars_open {T : List Char} (hh : T.head? = some '"') :
    parsePayloadChars ('{' :: T) = parseMembers (T.length + 1) T {} := by
  obtain ⟨Y, rfl⟩ : ∃ Y, T = '"' :: Y := by
    cases T with
    | nil => simp at hh
    | cons c Y => simp at hh; exact ⟨Y, by rw [hh]⟩
  simp only [parsePayloadChars, skipWs_cons_not_ws (show isWsChar '{' = false by decide),
    skipWs_cons_not_ws (show isWsChar '"' = false by decide), List.length_cons]
  simp

theorem parsePayload_serialize (c : Claims) (iat exp : Nat) (hw : wfClaims c) :
    parsePayloadChars (serializePayload c iat exp) =
      some { userId := c.userId, email := c.email, role := c.role,
             isVerified := c.isVerified, iat := some iat, exp := some exp } := by
  obtain ⟨hwu, hwe, hwr⟩ := hw
  obtain ⟨u0, e0, r0, v0⟩ := c
  simp only at hwu hwe hwr
  rcases u0 with _ | u <;> rcases e0 with _ | e <;> rcases r0 with _ | r <;> rcases v0 with _ | b
  · simp only [serializePayload]
    rw [parsePayloadChars_open (by simp [strMemberThen, natMemberThen, boolMemberThen, jstrLit])]
    have hch := ((parseMembers_natMember 5 "iat".data iat _ {} (by decide)).trans
        (parseMembers_natMemberLast 4 "exp".data exp _ (by decide)))
    exact parseMembers_mono (by simp [strMemberThen, natMemberThen, boolMemberThen,
      natMemberLast, jstrLit] <;> omega) hch
  · simp only [serializePayload]
    rw [parsePayloadChars_open (by simp [strMemberThen, natMemberThen, boolMemberThen, jstrLit])]
    have hch := ((parseMembers_boolMember 5 "isVerified".data b _ {} (by decide)).trans
        ((parseMembers_natMember 4 "iat".data iat _ _ (by decide)).trans
        (parseMembers_natMemberLast 3 "exp".data exp _ (by decide))))
    exact parseMembers_mono (by simp [strMemberThen, natMemberThen, boolMemberThen,
      natMemberLast, jstrLit] <;> omega) hch
  · simp only [serializePayload]
    rw [parsePayloadChars_open (by simp [strMemberThen, natMemberThen, boolMemberThen, jstrLit])]
    have hch := ((parseMembers_strMember 5 "role".data r _ {} (by decide) hwr).trans
        ((parseMembers_natMember 4 "iat".data iat _ _ (by decide)).trans
        (parseMembers_natMemberLast 3 "exp".data exp _ (by decide))))
    exact parseMembers_mono (by simp [strMemberThen, natMemberThen, boolMemberThen,
      natMemberLast, jstrLit] <;> omega) hch
  · simp only [serializePayload]
    rw [parsePayloadChars_open (by simp [strMemberThen, natMemberThen, boolMemberThen, jstrLit])]
    have hch := ((parseMembers_strMember 5 "role".data r _ {} (by decide) hwr).trans
        ((parseMembers_boolMember 4 "isVerified".data b _ _ (by decide)).trans
        ((parseMembers_natMember 3 "iat".data iat _ _ (by decide)).trans
        (parseMembers_natMemberLast 2 "exp".data exp _ (by decide)))))
    exact parseMembers_mono (by simp [strMemberThen, natMemberThen, boolMemberThen,
      natMemberLast, jstrLit] <;> omega) hch
  · simp only [serializePayload]
    rw [parsePayloadChars_open (by simp [strMemberThen, natMemberThen, boolMemberThen, jstrLit])]
    have hch := ((parseMembers_strMember 5 "email".data e _ {} (by decide) hwe).trans
        ((parseMembers_natMember 4 "iat".data iat _ _ (by decide)).trans
        (parseMembers_natMemberLast 3 "exp".data exp _ (by decide))))
    exact parseMembers_mono (by simp [strMemberThen, natMemberThen, boolMemberThen,
      natMemberLast, jstrLit] <;> omega) hch
  · simp only [serializePayload]
    rw [parsePayloadChars_open (by simp [strMemberThen, natMemberThen, boolMemberThen, jstrLit])]
    have hch := ((parseMembers_strMember 5 "email".data e _ {} (by decide) hwe).trans
        ((parseMembers_boolMember 4 "isVerified".data b _ _ (by decide)).trans
        ((parseMembers_natMember 3 "iat".data iat _ _ (by decide)).trans
        (parseMembers_natMemberLast 2 "exp".data exp _ (by decide)))))
    exact parseMembers_mono (by simp [strMemberThen, natMemberThen, boolMemberThen,
      natMemberLast, jstrLit] <;> omega) hch
  · simp only [serializePayload]
    rw [parsePayloadChars_open (by simp [strMemberThen, natMemberThen, boolMemberThen, jstrLit])]
    have hch := ((parseMembers_strMember 5 "email".data e _ {} (by decide) hwe).trans
        ((parseMembers_strMember 4 "role".data r _ _ (by decide) hwr).trans
        ((parseMembers_natMember 3 "iat".data iat _ _ (by decide)).trans
        (parseMembers_natMemberLast 2 "exp".data exp _ (by decide)))))
    exact parseMembers_mono (by simp [strMemberThen, natMemberThen, boolMemberThen,
      natMemberLast, jstrLit] <;> omega) hch
  · simp only [serializePayload]
    rw [parsePayloadChars_open (by simp [strMemberThen, natMemberThen, boolMemberThen, jstrLit])]
    have hch := ((parseMembers_strMember 5 "email".data e _ {} (by decide) hwe).trans
        ((parseMembers_strMember 4 "role".data r _ _ (by decide) hwr).trans
        ((parseMembers_boolMember 3 "isVerified".data b _ _ (by decide)).trans
        ((parseMembers_natMember 2 "iat".data iat _ _ (by decide)).trans
        (parseMembers_natMemberLast 1 "exp".data exp _ (by decide))))))
    exact parseMembers_mono (by simp [strMemberThen, natMemberThen, boolMemberThen,
      natMemberLast, jstrLit] <;> omega) hch
  · simp only [serializePayload]
    rw [parsePayloadChars_open (by simp [strMemberThen, natMemberThen, boolMemberThen, jstrLit])]
    have hch := ((parseMembers_strMember 5 "userId".data u _ {} (by decide) hwu).trans
        ((parseMembers_natMember 4 "iat".data iat _ _ (by decide)).trans
        (parseMembers_natMemberLast 3 "exp".data exp _ (by decide))))
    exact parseMembers_mono (by simp [strMemberThen, natMemberThen, boolMemberThen,
      natMemberLast, jstrLit] <;> omega) hch
  · simp only [serializePayload]
    rw [parsePayloadChars_open (by simp [strMemberThen, natMemberThen, boolMemberThen, jstrLit])]
    have hch := ((parseMembers_strMember 5 "userId".data u _ {} (by decide) hwu).trans
        ((parseMembers_boolMember 4 "isVerified".data b _ _ (by decide)).trans
        ((parseMembers_natMember 3 "iat".data iat _ _ (by decide)).trans
        (parseMembers_natMemberLast 2 "exp".data exp _ (by decide)))))
    exact parseMembers_mono (by simp [strMemberThen, natMemberThen, boolMemberThen,
      natMemberLast, jstrLit] <;> omega) hch
  · simp only [serializePayload]
    rw [parsePayloadChars_open (by simp [strMemberThen, natMemberThen, boolMemberThen, jstrLit])]
    have hch := ((parseMembers_strMember 5 "userId".data u _ {} (by decide) hwu).trans
        ((parseMembers_strMember 4 "role".data r _ _ (by decide) hwr).trans
        ((parseMembers_natMember 3 "iat".data iat _ _ (by decide)).trans
        (parseMembers_natMemberLast 2 "exp".data exp _ (by decide)))))
    exact parseMembers_mono (by simp [strMemberThen, natMemberThen, boolMemberThen,
      natMemberLast, jstrLit] <;> omega) hch
  · simp only [serializePayload]
    rw [parsePayloadChars_open (by simp [strMemberThen, natMemberThen, boolMemberThen, jstrLit])]
    have hch := ((parseMembers_strMember 5 "userId".data u _ {} (by decide) hwu).trans
        ((parseMembers_strMember 4 "role".data r _ _ (by decide) hwr).trans
        ((parseMembers_boolMember 3 "isVerified".data b _ _ (by decide)).trans
        ((parseMembers_natMember 2 "iat".data iat _ _ (by decide)).trans
        (parseMembers_natMemberLast 1 "exp".data exp _ (by decide))))))
    exact parseMembers_mono (by simp [strMemberThen, natMemberThen, boolMemberThen,
      natMemberLast, jstrLit] <;> omega) hch
  · simp only [serializePayload]
    rw [parsePayloadChars_open (by simp [strMemberThen, natMemberThen, boolMemberThen, jstrLit])]
    have hch := ((parseMembers_strMember 5 "userId".data u _ {} (by decide) hwu).trans
        ((parseMembers_strMember 4 "email".data e _ _ (by decide) hwe).trans
        ((parseMembers_natMember 3 "iat".data iat _ _ (by decide)).trans
        (parseMembers_natMemberLast 2 "exp".data exp _ (by decide)))))
    exact parseMembers_mono (by simp [strMemberThen, natMemberThen, boolMemberThen,
      natMemberLast, jstrLit] <;> omega) hch
  · simp only [serializePayload]
    rw [parsePayloadChars_open (by simp [strMemberThen, natMemberThen, boolMemberThen, jstrLit])]
    have hch := ((parseMembers_strMember 5 "userId".data u _ {} (by decide) hwu).trans
        ((parseMembers_strMember 4 "email".data e _ _ (by decide) hwe).trans
        ((parseMembers_boolMember 3 "isVerified".data b _ _ (by decide)).trans
        ((parseMembers_natMember 2 "iat".data iat _ _ (by decide)).trans
        (parseMembers_natMemberLast 1 "exp".data exp _ (by decide))))))
    exact parseMembers_mono (by simp [strMemberThen, natMemberThen, boolMemberThen,
      natMemberLast, jstrLit] <;> omega) hch
  · simp only [serializePayload]
    rw [parsePayloadChars_open (by simp [strMemberThen, natMemberThen, boolMemberThen, jstrLit])]
    have hch := ((parseMembers_strMember 5 "userId".data u _ {} (by decide) hwu).trans
        ((parseMembers_strMember 4 "email".data e _ _ (by decide) hwe).trans
        ((parseMembers_strMember 3 "role".data r _ _ (by decide) hwr).trans
        ((parseMembers_natMember 2 "iat".data iat _ _ (by decide)).trans
        (parseMembers_natMemberLast 1 "exp".data exp _ (by decide))))))
    exact parseMembers_mono (by simp [strMemberThen, natMemberThen, boolMemberThen,
      natMemberLast, jstrLit] <;> omega) hch
  · simp only [serializePayload]
    rw [parsePayloadChars_open (by simp [strMemberThen, natMemberThen, boolMemberThen, jstrLit])]
    have hch := ((parseMembers_strMember 5 "userId".data u _ {} (by decide) hwu).trans
        ((parseMembers_strMember 4 "email".data e _ _ (by decide) hwe).trans
        ((parseMembers_strMember 3 "role".data r _ _ (by decide) hwr).trans
        ((parseMembers_boolMember 2 "isVerified".data b _ _ (by decide)).trans
        ((parseMembers_natMember 1 "iat".data iat _ _ (by decide)).trans
        (parseMembers_natMemberLast 0 "exp".data exp _ (by decide)))))))
    exact parseMembers_mono (by simp [strMemberThen, natMemberThen, boolMemberThen,
      natMemberLast, jstrLit] <;> omega) hch

theorem jstrLit_toNat_lt {k : List Char} (hk : ∀ ch ∈ k, ch.toNat < 128) :
    ∀ ch ∈ jstrLit k, ch.toNat < 128 := by
  intro ch hch
  unfold jstrLit at hch
  rcases List.mem_cons.mp hch with rfl | hm
  · decide
  · rcases List.mem_append.mp hm with hm2 | hm2
    · exact hk ch hm2
    · simp at hm2
      subst hm2
      decide

theorem wfStr_toNat_lt {s : List Char} (h : wfStr s) : ∀ ch ∈ s, ch.toNat < 128 :=
  fun ch hch => (h ch hch).2.2.2

theorem strMemberThen_toNat_lt {k v rest : List Char} (hk : ∀ ch ∈ k, ch.toNat < 128)
    (hv : ∀ ch ∈ v, ch.toNat < 128) (hr : ∀ ch ∈ rest, ch.toNat < 128) :
    ∀ ch ∈ strMemberThen k v rest, ch.toNat < 128 := by
  intro ch hch
  unfold strMemberThen at hch
  rcases List.mem_append.mp hch with hm | hm
  · exact jstrLit_toNat_lt hk ch hm
  · rcases List.mem_cons.mp hm with rfl | hm2
    · decide
    · rcases List.mem_append.mp hm2 with hm3 | hm3
      · exact jstrLit_toNat_lt hv ch hm3
      · rcases List.mem_cons.mp hm3 with rfl | hm4
        · decide
        · exact hr ch hm4

theorem boolMemberThen_toNat_lt {k rest : List Char} {b : Bool}
    (hk : ∀ ch ∈ k, ch.toNat < 128) (hr : ∀ ch ∈ rest, ch.toNat < 128) :
    ∀ ch ∈ boolMemberThen k b rest, ch.toNat < 128 := by
  intro ch hch
  unfold boolMemberThen at hch
  rcases List.mem_append.mp hch with hm | hm
  · exact jstrLit_toNat_lt hk ch hm
  · rcases List.mem_cons.mp hm with rfl | hm2
    · decide
    · rcases List.mem_append.mp hm2 with hm3 | hm3
      · cases b <;> simp at hm3 <;> rcases hm3 with rfl | rfl | rfl | rfl | rfl <;> decide
      · rcases List.mem_cons.mp hm3 with rfl | hm4
        · decide
        · exact hr ch hm4

theorem natMemberThen_toNat_lt {k rest : List Char} {n : Nat}
    (hk : ∀ ch ∈ k, ch.toNat < 128) (hr : ∀ ch ∈ rest, ch.toNat < 128) :
    ∀ ch ∈ natMemberThen k n rest, ch.toNat < 128 := by
  intro ch hch
  unfold natMemberThen at hch
  rcases List.mem_append.mp hch with hm | hm
  · exact jstrLit_toNat_lt hk ch hm
  · rcases List.mem_cons.mp hm with rfl | hm2
    · decide
    · rcases List.mem_append.mp hm2 with hm3 | hm3
      · exact natDigits_toNat_lt n ch hm3
      · rcases List.mem_cons.mp hm3 with rfl | hm4
        · decide
        · exact hr ch hm4

theorem natMemberLast_toNat_lt {k : List Char} {n : Nat}
    (hk : ∀ ch ∈ k, ch.toNat < 128) :
    ∀ ch ∈ natMemberLast k n, ch.toNat < 128 := by
  intro ch hch
  unfold natMemberLast at hch
  rcases List.mem_append.mp hch with hm | hm
  · exact jstrLit_toNat_lt hk ch hm
  · rcases List.mem_cons.mp hm with rfl | hm2
    · decide
    · rcases List.mem_append.mp hm2 with hm3 | hm3
      · exact natDigits_toNat_lt n ch hm3
      · simp at hm3
        subst hm3
        decide

theorem serialize_toNat_lt (c : Claims) (iat exp : Nat) (hw : wfClaims c) :
    ∀ ch ∈ serializePayload c iat exp, ch.toNat < 128 := by
  obtain ⟨hwu, hwe, hwr⟩ := hw
  have hEnd : ∀ ch ∈ natMemberThen "iat".data iat (natMemberLast "exp".data exp),
      ch.toNat < 128 :=
    natMemberThen_toNat_lt (by decide) (natMemberLast_toNat_lt (by decide))
  have h1 : ∀ ch ∈ (match c.isVerified with
      | none => natMemberThen "iat".data iat (natMemberLast "exp".data exp)
      | some b => boolMemberThen "isVerified".data b
          (natMemberThen "iat".data iat (natMemberLast "exp".data exp))), ch.toNat < 128 := by
    cases c.isVerified with
    | none => exact hEnd
    | some b => exact boolMemberThen_toNat_lt (by decide) hEnd
  have h2 : ∀ ch ∈ (match c.role with
      | none => (match c.isVerified with
          | none => natMemberThen "iat".data iat (natMemberLast "exp".data exp)
          | some b => boolMemberThen "isVerified".data b
              (natMemberThen "iat".data iat (natMemberLast "exp".data exp)))
      | some r => strMemberThen "role".data r
          (match c.isVerified with
           | none => natMemberThen "iat".data iat (natMemberLast "exp".data exp)
           | some b => boolMemberThen "isVerified".data b
               (natMemberThen "iat".data iat (natMemberLast "exp".data exp)))), ch.toNat < 128 := by
    cases hro : c.role with
    | none => exact h1
    | some r =>
        refine strMemberThen_toNat_lt (by decide) ?_ h1
        exact wfStr_toNat_lt (by rw [hro] at hwr; exact hwr)
  have h3 : ∀ ch ∈ (match c.email with
      | none => (match c.role with
          | none => (match c.isVerified with
              | none => natMemberThen "iat".data iat (natMemberLast "exp".data exp)
              | some b => boolMemberThen "isVerified".data b
                  (natMemberThen "iat".data iat (natMemberLast "exp".data exp)))
          | some r => strMemberThen "role".data r
              (match c.isVerified with
               | none => natMemberThen "iat".data iat (natMemberLast "exp".data exp)
               | some b => boolMemberThen "isVerified".data b
                   (natMemberThen "iat".data iat (natMemberLast "exp".data exp))))
      | some e => strMemberThen "email".data e
          (match c.role with
           | none => (match c.isVerified with
               | none => natMemberThen "iat".data iat (natMemberLast "exp".data exp)
               | some b => boolMemberThen "isVerified".data b
                   (natMemberThen "iat".data iat (natMemberLast "exp".data exp)))
           | some r => strMemberThen "role".data r
               (match c.isVerified with
                | none => natMemberThen "iat".data iat (natMemberLast "exp".data exp)
                | some b => boolMemberThen "isVerified".data b
                    (natMemberThen "iat".data iat (natMemberLast "exp".data exp))))),
      ch.toNat < 128 := by
    cases hem : c.email with
    | none => exact h2
    | some e =>
        refine strMemberThen_toNat_lt (by decide) ?_ h2
        exact wfStr_toNat_lt (by rw [hem] at hwe; exact hwe)
  intro ch hch
  simp only [serializePayload] at hch
  rcases List.mem_cons.mp hch with rfl | hm
  · decide
  · revert hm
    cases hus : c.userId with
    | none =>
        intro hm
        exact h3 ch hm
    | some u =>
        intro hm
        refine strMemberThen_toNat_lt (by decide) ?_ h3 ch hm
        exact wfStr_toNat_lt (by rw [hus] at hwu; exact hwu)

theorem verifyToken_parts (hmac : HmacFn) (secret : List Char) (nowMs : Nat)
    {tok h p sg : List Char} (hsplit : splitOnDot tok = [h, p, sg]) :
    verifyToken hmac secret nowMs tok =
      (if sg ≠ createSignature hmac secret (h ++ '.' :: p) then none
       else
         match (base64urlDecode p).bind (fun bs => parsePayloadChars (bytesToChars bs)) with
         | none => none
         | some payload => if expiredAt payload nowMs then none else some payload) := by
  unfold verifyToken
  rw [hsplit]

theorem verifyTokenEdge_parts (hmac : HmacFn) (secret : List Char) (nowMs : Nat)
    {tok h p sg : List Char} (hsplit : splitOnDot tok = [h, p, sg]) :
    verifyTokenEdge hmac secret nowMs tok =
      (if sg ≠ b64ToUrl (base64Encode (hmac (strBytes secret) (strBytes (h ++ '.' :: p)))) then
        ⟨false, none⟩
       else
         match (atobDecode (urlToStd p)).bind (fun bs => parsePayloadChars (bytesToChars bs)) with
         | none => ⟨false, none⟩
         | some payload =>
             if expiredAt payload nowMs then ⟨false, none⟩ else ⟨true, payload.isVerified⟩) := by
  unfold verifyTokenEdge
  rw [hsplit]

theorem signToken_shape (hmac : HmacFn) (secret : List Char) (c : Claims)
    (ttl : List Char) (nowMs : Nat) :
    signToken hmac secret c ttl nowMs =
      b64ToUrl (base64Encode (strBytes headerChars)) ++
        '.' :: (b64ToUrl (base64Encode (strBytes (serializePayload c (nowMs / 1000)
            (nowMs / 1000 + parseDuration ttl / 1000)))) ++
          '.' :: b64ToUrl (base64Encode (hmac (strBytes secret) (strBytes
            (b64ToUrl (base64Encode (strBytes headerChars)) ++
              '.' :: b64ToUrl (base64Encode (strBytes (serializePayload c (nowMs / 1000)
                (nowMs / 1000 + parseDuration ttl / 1000))))))))) := by
  simp only [signToken, createSignature]
  rw [List.append_assoc, List.cons_append]

theorem verifyToken_signToken (hmac : HmacFn) (secret : List Char) (c : Claims)
    (ttl : List Char) (nowMs nowMs' : Nat) (hw : wfClaims c) :
    verifyToken hmac secret nowMs' (signToken hmac secret c ttl nowMs) =
      if nowMs / 1000 + parseDuration ttl / 1000 < nowMs' / 1000 then none
      else some { userId := c.userId, email := c.email, role := c.role,
                  isVerified := c.isVerified, iat := some (nowMs / 1000),
                  exp := some (nowMs / 1000 + parseDuration ttl / 1000) } := by
  have hserbytes : ∀ b ∈ strBytes (serializePayload c (nowMs / 1000)
      (nowMs / 1000 + parseDuration ttl / 1000)), b < 256 := by
    intro b hb
    simp only [strBytes, List.mem_map] at hb
    obtain ⟨ch, hch, rfl⟩ := hb
    have := serialize_toNat_lt c _ _ hw ch hch
    omega
  have hsplit := splitOnDot_three
    (b64ToUrl_encode_dot_not_mem (strBytes headerChars))
    (b64ToUrl_encode_dot_not_mem (strBytes (serializePayload c (nowMs / 1000)
      (nowMs / 1000 + parseDuration ttl / 1000))))
    (b64ToUrl_encode_dot_not_mem (hmac (strBytes secret) (strBytes
      (b64ToUrl (base64Encode (strBytes headerChars)) ++
        '.' :: b64ToUrl (base64Encode (strBytes (serializePayload c (nowMs / 1000)
          (nowMs / 1000 + parseDuration ttl / 1000))))))))
  rw [signToken_shape, verifyToken_parts hmac secret nowMs' hsplit]
  rw [if_neg (fun hx => hx (by simp [createSignature]))]
  rw [base64urlDecode_b64ToUrl_encode _ hserbytes]
  simp only [Option.some_bind]
  rw [bytesToChars_strBytes, parsePayload_serialize c _ _ hw]
  by_cases hE : nowMs / 1000 + parseDuration ttl / 1000 < nowMs' / 1000
  · rw [if_pos hE]
    simp [expiredAt, hE]
  · rw [if_neg hE]
    simp [expiredAt, hE]

theorem verifyToken_not3 (hmac : HmacFn) (secret : List Char) (nowMs : Nat)
    {tok : List Char} (hlen : (splitOnDot tok).length ≠ 3) :
    verifyToken hmac secret nowMs tok = none := by
  unfold verifyToken
  rcases hsp : splitOnDot tok with _ | ⟨a, _ | ⟨b, _ | ⟨c, _ | ⟨d, t⟩⟩⟩⟩ <;>
    rw [hsp] at hlen <;> simp at hlen ⊢

theorem verifyTokenEdge_not3 (hmac : HmacFn) (secret : List Char) (nowMs : Nat)
    {tok : List Char} (hlen : (splitOnDot tok).length ≠ 3) :
    verifyTokenEdge hmac secret nowMs tok = ⟨false, none⟩ := by
  unfold verifyTokenEdge
  rcases hsp : splitOnDot tok with _ | ⟨a, _ | ⟨b, _ | ⟨c, _ | ⟨d, t⟩⟩⟩⟩ <;>
    rw [hsp] at hlen <;> simp at hlen ⊢

theorem verify_verdicts_agree (hmac : HmacFn) (secret : List Char) (nowMs : Nat)
    (tok : List Char)
    (hcanon : ∀ h p sg, splitOnDot tok = [h, p, sg] →
      ∃ bs, (∀ x ∈ bs, x < 128) ∧ p = b64ToUrl (base64Encode bs)) :
    (verifyToken hmac secret nowMs tok).isSome = (verifyTokenEdge hmac secret nowMs tok).valid := by
  rcases hsp : splitOnDot tok with _ | ⟨a, _ | ⟨b, _ | ⟨c, _ | ⟨d, t⟩⟩⟩⟩
  · rw [verifyToken_not3 hmac secret nowMs (by rw [hsp]; simp),
      verifyTokenEdge_not3 hmac secret nowMs (by rw [hsp]; simp)]
    rfl
  · rw [verifyToken_not3 hmac secret nowMs (by rw [hsp]; simp),
      verifyTokenEdge_not3 hmac secret nowMs (by rw [hsp]; simp)]
    rfl
  · rw [verifyToken_not3 hmac secret nowMs (by rw [hsp]; simp),
      verifyTokenEdge_not3 hmac secret nowMs (by rw [hsp]; simp)]
    rfl
  · rw [verifyToken_parts hmac secret nowMs hsp, verifyTokenEdge_parts hmac secret nowMs hsp]
    by_cases hsg : c = createSignature hmac secret (a ++ '.' :: b)
    · rw [if_neg (fun hx => hx hsg), if_neg (fun hx => hx (by rw [hsg]; rfl))]
      obtain ⟨bs, hlt, hp⟩ := hcanon a b c hsp
      have h256 : ∀ x ∈ bs, x < 256 := fun x hx => lt_trans (hlt x hx) (by norm_num)
      rw [hp, atobDecode_url_encode bs h256, base64urlDecode_b64ToUrl_encode bs h256]
      simp only [Option.some_bind]
      rcases hdec : parsePayloadChars (bytesToChars bs) with _ | payload
      · rfl
      · by_cases hE : expiredAt payload nowMs <;> simp [hE]
    · rw [if_pos hsg, if_pos (fun hx => hsg (by rw [hx]; rfl))]
      rfl
  · rw [verifyToken_not3 hmac secret nowMs (by rw [hsp]; simp),
      verifyTokenEdge_not3 hmac secret nowMs (by rw [hsp]; simp)]
    rfl

theorem verifyTokenEdge_rejects_cross_secret (hmac : HmacFn) (sMain sEdge : List Char)
    (c : Claims) (ttl : List Char) (nowMs nowMs' : Nat)
    (hbytes : ∀ k d, ∀ b ∈ hmac k d, b < 256)
    (hkey : ∀ d, hmac (strBytes sMain) d ≠ hmac (strBytes sEdge) d) :
    (verifyTokenEdge hmac sEdge nowMs' (signToken hmac sMain c ttl nowMs)).valid = false := by
  have hsplit := splitOnDot_three
    (b64ToUrl_encode_dot_not_mem (strBytes headerChars))
    (b64ToUrl_encode_dot_not_mem (strBytes (serializePayload c (nowMs / 1000)
      (nowMs / 1000 + parseDuration ttl / 1000))))
    (b64ToUrl_encode_dot_not_mem (hmac (strBytes sMain) (strBytes
      (b64ToUrl (base64Encode (strBytes headerChars)) ++
        '.' :: b64ToUrl (base64Encode (strBytes (serializePayload c (nowMs / 1000)
          (nowMs / 1000 + parseDuration ttl / 1000))))))))
  rw [signToken_shape, verifyTokenEdge_parts hmac sEdge nowMs' hsplit]
  rw [if_pos ?hne]
  case hne =>
    intro heq
    have hb := b64ToUrl_encode_inj (hbytes _ _) (hbytes _ _) heq
    exact hkey _ hb

theorem rlRun_length (key : String) (cfg : RateLimitConfig) :
    ∀ (ts : List Nat) (store : RLStore), (rlRun key cfg ts store).1.length = ts.length := by
  intro ts
  induction ts with
  | nil => intro store; rfl
  | cons t ts ih =>
      intro store
      simp only [rlRun]
      simp [ih]

theorem rlRun_within (key : String) (cfg : RateLimitConfig) (rt : Nat) :
    ∀ (ts : List Nat) (store : RLStore) (c : Nat),
      store key = some ⟨c, rt⟩ → (∀ t ∈ ts, t ≤ rt) →
      ((rlRun key cfg ts store).2 key = some ⟨c + ts.length, rt⟩ ∧
       ∀ r, (rlRun key cfg ts store).1.getLast? = some r →
         r.allowed = decide (c + ts.length ≤ cfg.maxRequests) ∧
         (cfg.maxRequests < c + ts.length → r.remaining = 0)) := by
  intro ts
  induction ts with
  | nil =>
      intro store c hs _
      refine ⟨by simpa [rlRun] using hs, ?_⟩
      intro r hr
      simp [rlRun] at hr
  | cons t ts ih =>
      intro store c hs hts
      simp only [List.length_cons]
      have hle : t ≤ rt := hts t (by simp)
      have hstep : checkRateLimit key cfg t store =
          (if c + 1 > cfg.maxRequests then
            (⟨false, 0, (rt : Int) - (t : Int)⟩, rlSet store key ⟨c + 1, rt⟩)
           else
            (⟨true, (cfg.maxRequests : Int) - ((c + 1 : Nat) : Int), (rt : Int) - (t : Int)⟩,
             rlSet store key ⟨c + 1, rt⟩)) := by
        simp only [checkRateLimit, hs]
        rw [if_neg (show ¬ rt < t by omega)]
      have hsetk : (rlSet store key ⟨c + 1, rt⟩) key = some ⟨c + 1, rt⟩ := by
        simp [rlSet]
      have hts' : ∀ x ∈ ts, x ≤ rt := fun x hx => hts x (by simp [hx])
      obtain ⟨ih1, ih2⟩ := ih (rlSet store key ⟨c + 1, rt⟩) (c + 1) hsetk hts'
      by_cases hover : c + 1 > cfg.maxRequests
      · rw [if_pos hover] at hstep
        constructor
        · simp only [rlRun, hstep]
          simpa [Nat.add_comm, Nat.add_assoc, Nat.add_left_comm] using ih1
        · intro r hr
          simp only [rlRun, hstep] at hr
          rcases hlast : (rlRun key cfg ts (rlSet store key ⟨c + 1, rt⟩)).1 with _ | ⟨r0, rs⟩
          · have : ts = [] := by
              have := rlRun_length key cfg ts (rlSet store key ⟨c + 1, rt⟩)
              rw [hlast] at this
              simpa using this.symm
            subst this
            simp [rlRun] at hr hlast ⊢
            subst hr
            refine ⟨by simp; omega, fun _ => rfl⟩
          · rw [hlast] at hr
            simp only [List.getLast?_cons_cons] at hr
            have := ih2 r (by rw [hlast]; exact hr)
            refine ⟨this.1.trans
              (by rw [show c + 1 + ts.length = c + (ts.length + 1) by omega]),
              fun _ => this.2 (by omega)⟩
      · rw [if_neg hover] at hstep
        constructor
        · simp only [rlRun, hstep]
          simpa [Nat.add_comm, Nat.add_assoc, Nat.add_left_comm] using ih1
        · intro r hr
          simp only [rlRun, hstep] at hr
          rcases hlast : (rlRun key cfg ts (rlSet store key ⟨c + 1, rt⟩)).1 with _ | ⟨r0, rs⟩
          · have : ts = [] := by
              have := rlRun_length key cfg ts (rlSet store key ⟨c + 1, rt⟩)
              rw [hlast] at this
              simpa using this.symm
            subst this
            simp [rlRun] at hr hlast ⊢
            subst hr
            refine ⟨by simp; omega, fun hx => absurd hx (by omega)⟩
          · rw [hlast] at hr
            simp only [List.getLast?_cons_cons] at hr
            have := ih2 r (by rw [hlast]; exact hr)
            refine ⟨this.1.trans
              (by rw [show c + 1 + ts.length = c + (ts.length + 1) by omega]),
              fun _ => this.2 (by omega)⟩

theorem isAuthRoute_not_protected {p : List Char} (h : isAuthRoute p = true) :
    isProtectedRoute p = false := by
  have hshape : (∃ t, p = '/' :: 'l' :: t) ∨ (∃ t, p = '/' :: 'r' :: t) := by
    unfold isAuthRoute at h
    simp only [Bool.or_eq_true, decide_eq_true_eq] at h
    rcases h with (h | h) | (h | h)
    · exact Or.inl ⟨"ogin".data, by rw [h]⟩
    · obtain ⟨t, ht⟩ := List.isPrefixOf_iff_prefix.mp h
      exact Or.inl ⟨"ogin".data ++ t, by rw [← ht]; rfl⟩
    · exact Or.inr ⟨"egister".data, by rw [h]⟩
    · obtain ⟨t, ht⟩ := List.isPrefixOf_iff_prefix.mp h
      exact Or.inr ⟨"egister".data ++ t, by rw [← ht]; rfl⟩
  unfold isProtectedRoute listStartsWith
  rcases hshape with ⟨t, rfl⟩ | ⟨t, rfl⟩
  · by_contra hx
    simp only [Bool.not_eq_false] at hx
    obtain ⟨u, hu⟩ := List.isPrefixOf_iff_prefix.mp hx
    have hu2 : '/' :: 'd' :: ("ashboard".data ++ u) = '/' :: 'l' :: t := hu
    simp at hu2
  · by_contra hx
    simp only [Bool.not_eq_false] at hx
    obtain ⟨u, hu⟩ := List.isPrefixOf_iff_prefix.mp hx
    have hu2 : '/' :: 'd' :: ("ashboard".data ++ u) = '/' :: 'r' :: t := hu
    simp at hu2

theorem find?_updateFirst_none {p : UserRec → Bool} {f : UserRec → UserRec}
    (hf : ∀ u, p u = true → p (f u) = false) :
    ∀ db : List UserRec, db.countP p ≤ 1 → (updateFirst p f db).find? p = none := by
  intro db
  induction db with
  | nil => intro _; rfl
  | cons u rest ih =>
      intro hcount
      by_cases hu : p u = true
      · simp only [updateFirst, if_pos hu]
        rw [List.find?_cons_of_neg _ (by simp [hf u hu])]
        rw [List.find?_eq_none]
        intro x hx
        have hc0 : rest.countP p = 0 := by
          rw [List.countP_cons, if_pos hu] at hcount
          omega
        exact List.countP_eq_zero.mp hc0 x hx
      · simp only [updateFirst, if_neg hu]
        rw [List.find?_cons_of_neg _ (by simpa using hu)]
        refine ih (le_trans ?_ hcount)
        rw [List.countP_cons]
        omega

/-- C2 counterexample: a token string that `verifyToken` accepts (Node's
decoder pads the payload before decoding) while `verifyTokenEdge` rejects
it (`atob` refuses an embedded `=`), so the two verifiers are not
equivalent on every token string. -/
theorem c2_two_verifiers_divergent_token :
    (verifyToken demoHmac demoSecret 0 c2tok).isSome = true ∧
    (verifyTokenEdge demoHmac demoSecret 0 c2tok).valid = false := by
  constructor <;> decide

/-- C2 (amended): with the same shared signing secret, the Edge route-guard
verifier and the main codec's `verifyToken` return identical accept/reject
verdicts for every token string whose payload segment is a canonical
unpadded base64url encoding of ASCII bytes — in particular for every token
`signToken` mints. The same three-part split, HMAC-SHA256 signature
computation, base64url encoding without padding and expiry check make the
two pipelines agree on that class; beyond it they diverge, because Node's
lenient `Buffer` decoder skips foreign characters and stops at the first
`=` while `atob` rejects them (see the counterexample). -/
theorem c2_verifier_equivalence_on_canonical_tokens
    (hmac : HmacFn) (secret : List Char) (nowMs : Nat) (tok : List Char)
    (hcanon : ∀ h p sg, splitOnDot tok = [h, p, sg] →
      ∃ bs, (∀ x ∈ bs, x < 128) ∧ p = b64ToUrl (base64Encode bs)) :
    (verifyToken hmac secret nowMs tok).isSome =
      (verifyTokenEdge hmac secret nowMs tok).valid :=
  verify_verdicts_agree hmac secret nowMs tok hcanon

/-- C2 witness: the equivalence applied to a concrete freshly minted
login token, whose payload segment encodes the serialized login claims. -/
theorem c2_verifier_equivalence_witness :
    (verifyToken demoHmac demoSecret 0 c2wTok).isSome =
      (verifyTokenEdge demoHmac demoSecret 0 c2wTok).valid :=
  c2_verifier_equivalence_on_canonical_tokens demoHmac demoSecret 0 c2wTok (by
    intro h p sg hsp
    refine ⟨strBytes (serializePayload c2wClaims 0 3600), by decide, ?_⟩
    have hp : p = (splitOnDot c2wTok).getD 1 [] := by
      rw [hsp]
      rfl
    rw [hp]
    decide)

/-- C3 counterexample: a token minted at time 0 with a 1-second TTL carries
`exp = 1`, and at current time second 1 — exactly the expiry instant — the
code still accepts it (`payload.exp < now` is false), contradicting the
claim that verification returns invalid at any time at or after the expiry
instant. -/
theorem c3_valid_at_expiry_instant :
    (verifyToken demoHmac demoSecret 1000 c3tok).map Decoded.exp = some (some 1) ∧
    (verifyToken demoHmac demoSecret 1000 c3tok).isSome = true ∧
    (1000 : Nat) / 1000 = 1 := by
  refine ⟨by decide, by decide, rfl⟩

/-- C3 (amended): for every claim set with serializable strings and every
TTL string, `verifyToken` on `signToken`'s output returns the claims
unchanged (plus the minted `iat`/`exp`) at any current time up to and
including the expiry instant, and returns `none` strictly after it. -/
theorem c3_sign_verify_roundtrip_amended
    (hmac : HmacFn) (secret : List Char) (c : Claims) (ttl : List Char)
    (nowMs nowMs' : Nat) (hw : wfClaims c) :
    verifyToken hmac secret nowMs' (signToken hmac secret c ttl nowMs) =
      if nowMs / 1000 + parseDuration ttl / 1000 < nowMs' / 1000 then none
      else some { userId := c.userId, email := c.email, role := c.role,
                  isVerified := c.isVerified, iat := some (nowMs / 1000),
                  exp := some (nowMs / 1000 + parseDuration ttl / 1000) } :=
  verifyToken_signToken hmac secret c ttl nowMs nowMs' hw

/-- C3 witness: the round trip applied to a concrete claim set, before and
after expiry. -/
theorem c3_sign_verify_roundtrip_witness :
    verifyToken demoHmac demoSecret 500 c3tok =
      some { userId := some "u1".data, email := some "a@b.c".data,
             role := some "user".data, isVerified := some true,
             iat := some 0, exp := some 1 } ∧
    verifyToken demoHmac demoSecret 2500 c3tok = none := by
  constructor
  · have h := c3_sign_verify_roundtrip_amended demoHmac demoSecret c3Claims "1s".data 0 500
      (by decide)
    rw [show c3tok = signToken demoHmac demoSecret c3Claims "1s".data 0 from rfl, h]
    decide
  · have h := c3_sign_verify_roundtrip_amended demoHmac demoSecret c3Claims "1s".data 0 2500
      (by decide)
    rw [show c3tok = signToken demoHmac demoSecret c3Claims "1s".data 0 from rfl, h]
    decide

/-- C4 counterexample: `verifyToken` checks only that the split yields
exactly three parts, not that they are non-empty; a token whose header
segment is empty still splits into three parts, passes the signature
check (the header is never decoded) and is accepted — refuting the claim
that every string that does not split into three non-empty parts yields
`null`. -/
theorem c4_empty_header_token_accepted :
    splitOnDot c4tok = [[], c4payloadSeg,
      createSignature demoHmac demoSecret ('.' :: c4payloadSeg)] ∧
    (verifyToken demoHmac demoSecret 0 c4tok).isSome = true := by
  constructor <;> decide

/-- C4 (amended): `verifyToken` is a total function (never throws, by
construction of the model) which returns `none` whenever the token does
not split into exactly three dot-separated parts (emptiness of a part is
not checked), whenever the third part differs from the recomputed
signature over the first two, and whenever decoding/parsing the payload
fails. -/
theorem c4_verify_totality_amended (hmac : HmacFn) (secret : List Char)
    (nowMs : Nat) (tok : List Char) :
    ((splitOnDot tok).length ≠ 3 → verifyToken hmac secret nowMs tok = none) ∧
    (∀ h p sg, splitOnDot tok = [h, p, sg] →
      sg ≠ createSignature hmac secret (h ++ '.' :: p) →
      verifyToken hmac secret nowMs tok = none) ∧
    (∀ h p sg, splitOnDot tok = [h, p, sg] →
      (base64urlDecode p).bind (fun bs => parsePayloadChars (bytesToChars bs)) = none →
      verifyToken hmac secret nowMs tok = none) := by
  refine ⟨fun hlen => verifyToken_not3 hmac secret nowMs hlen, ?_, ?_⟩
  · intro h p sg hsp hne
    rw [verifyToken_parts hmac secret nowMs hsp, if_pos hne]
  · intro h p sg hsp hdec
    rw [verifyToken_parts hmac secret nowMs hsp]
    by_cases hsg : sg = createSignature hmac secret (h ++ '.' :: p)
    · rw [if_neg (fun hx => hx hsg), hdec]
    · rw [if_pos hsg]

/-- C4 witness: the three conjuncts applied to concrete malformed tokens —
a two-part token, a wrong-signature token, and a token whose payload is
not decodable base64url. -/
theorem c4_verify_totality_witness :
    verifyToken demoHmac demoSecret 0 "ab.cd".data = none ∧
    verifyToken demoHmac demoSecret 0 "ab.cd.WRONG".data = none ∧
    verifyToken demoHmac demoSecret 0 ("ab.A.".data ++
      createSignature demoHmac demoSecret "ab.A".data) = none := by
  refine ⟨(c4_verify_totality_amended demoHmac demoSecret 0 "ab.cd".data).1 (by decide),
    (c4_verify_totality_amended demoHmac demoSecret 0 "ab.cd.WRONG".data).2.1
      "ab".data "cd".data "WRONG".data (by decide) (by decide), ?_⟩
  exact (c4_verify_totality_amended demoHmac demoSecret 0 ("ab.A.".data ++
      createSignature demoHmac demoSecret "ab.A".data)).2.2
    "ab".data "A".data (createSignature demoHmac demoSecret "ab.A".data)
    (by decide) (by decide)

/-- C1: the 401-on-missing-cookie half of the claim holds, but rotation
does not preserve the identity claims: the login route mints tokens whose
payload includes the `isVerified` flag ("include isVerified for middleware
checks"), while the refresh route rebuilds the payload from only
`{ userId, email, role }`, so the rotated access and refresh tokens decode
with no `isVerified` member — the route guard then treats the bearer as
unverified. The code contradicts its own documented intent; evaluated here
at a concrete refresh token carrying `isVerified = true`. -/
theorem c1_refresh_rotation_drops_verified_flag :
    (∀ (hmac : HmacFn) (secret accessTtl refreshTtl : List Char) (nowMs : Nat),
      refreshPOST hmac secret accessTtl refreshTtl nowMs none =
        RefreshOut.err 401 "No refresh token provided".data) ∧
    (verifyToken demoHmac demoSecret 0 c1RefreshTok).map Decoded.isVerified =
      some (some true) ∧
    refreshPOST demoHmac demoSecret "15m".data "7d".data 0 (some c1RefreshTok) =
      RefreshOut.ok (signToken demoHmac demoSecret c1RotatedClaims "15m".data 0)
        (signToken demoHmac demoSecret c1RotatedClaims "7d".data 0) ∧
    (verifyToken demoHmac demoSecret 0
        (signToken demoHmac demoSecret c1RotatedClaims "15m".data 0)).map
      Decoded.isVerified = some none := by
  refine ⟨fun _ _ _ _ _ => rfl, by decide, by decide, by decide⟩

/-- C10: when `JWT_SECRET` is unset, the main codec falls back to
`fallback-secret-change-in-production` while the Edge verifier falls back
to the different `fallback-secret`; for any keyed hash that separates the
two keys, every token `signToken` produces under the main fallback is
rejected by `verifyTokenEdge` under the Edge fallback, while the main
codec itself still accepts it — so the two verifiers agree only when the
environment variable is set. -/
theorem c10_fallback_secret_mismatch :
    mainJwtSecret none = "fallback-secret-change-in-production".data ∧
    edgeJwtSecret none = "fallback-secret".data ∧
    mainJwtSecret none ≠ edgeJwtSecret none ∧
    (∀ (hmac : HmacFn) (c : Claims) (ttl : List Char) (nowMs nowMs' : Nat),
      (∀ k d, ∀ b ∈ hmac k d, b < 256) →
      (∀ d, hmac (strBytes (mainJwtSecret none)) d ≠
        hmac (strBytes (edgeJwtSecret none)) d) →
      (verifyTokenEdge hmac (edgeJwtSecret none) nowMs'
        (signToken hmac (mainJwtSecret none) c ttl nowMs)).valid = false) ∧
    (∀ (hmac : HmacFn) (c : Claims) (ttl : List Char) (nowMs nowMs' : Nat),
      wfClaims c → ¬(nowMs / 1000 + parseDuration ttl / 1000 < nowMs' / 1000) →
      (verifyToken hmac (mainJwtSecret none) nowMs'
        (signToken hmac (mainJwtSecret none) c ttl nowMs)).isSome = true) := by
  refine ⟨rfl, rfl, by decide, ?_, ?_⟩
  · intro hmac c ttl nowMs nowMs' hbytes hkey
    exact verifyTokenEdge_rejects_cross_secret hmac _ _ c ttl nowMs nowMs' hbytes hkey
  · intro hmac c ttl nowMs nowMs' hw hfresh
    rw [verifyToken_signToken hmac _ c ttl nowMs nowMs' hw, if_neg hfresh]
    rfl

/-- C10 witness: the mismatch and the main-codec acceptance at a concrete
keyed hash and claim set. -/
theorem c10_fallback_secret_witness :
    (verifyTokenEdge c10Hmac (edgeJwtSecret none) 0
      (signToken c10Hmac (mainJwtSecret none) c10Claims "7d".data 0)).valid = false ∧
    (verifyToken c10Hmac (mainJwtSecret none) 0
      (signToken c10Hmac (mainJwtSecret none) c10Claims "7d".data 0)).isSome = true := by
  constructor
  · refine c10_fallback_secret_mismatch.2.2.2.1 c10Hmac c10Claims "7d".data 0 0 ?_ ?_
    · intro k d b hb
      simp only [c10Hmac, List.mem_singleton] at hb
      subst hb
      exact Nat.mod_lt _ (by omega)
    · intro d
      show [(strBytes (mainJwtSecret none)).length % 256] ≠
        [(strBytes (edgeJwtSecret none)).length % 256]
      decide
  · exact c10_fallback_secret_mismatch.2.2.2.2 c10Hmac c10Claims "7d".data 0 0
      (by decide) (by decide)

/-- C5: the fixed-window rate limiter. A first call for a key (no stored
entry), or a call once the stored window has elapsed (`resetTime < now`),
resets the count to 1, starts a window of length `windowMs` and reports
allowed with `remaining = maxRequests - 1`; a call while the stored entry
is live increments the count, reporting not-allowed with `remaining = 0`
when the incremented count exceeds `maxRequests` and allowed with
`remaining = maxRequests - count` otherwise; consequently, with
`maxRequests = N ≥ 1`, the (N+1)-th call within the window returns
`allowed = false` with `remaining = 0`. -/
theorem c5_fixed_window_rate_limiting (key : String) (cfg : RateLimitConfig)
    (nowMs : Nat) (store : RLStore) :
    (store key = none →
      checkRateLimit key cfg nowMs store =
        (⟨true, (cfg.maxRequests : Int) - 1, (cfg.windowMs : Int)⟩,
         rlSet store key ⟨1, nowMs + cfg.windowMs⟩)) ∧
    (∀ e, store key = some e → e.resetTime < nowMs →
      checkRateLimit key cfg nowMs store =
        (⟨true, (cfg.maxRequests : Int) - 1, (cfg.windowMs : Int)⟩,
         rlSet store key ⟨1, nowMs + cfg.windowMs⟩)) ∧
    (∀ e, store key = some e → ¬ e.resetTime < nowMs →
      checkRateLimit key cfg nowMs store =
        (if e.count + 1 > cfg.maxRequests then
          (⟨false, 0, (e.resetTime : Int) - (nowMs : Int)⟩,
           rlSet store key ⟨e.count + 1, e.resetTime⟩)
         else
          (⟨true, (cfg.maxRequests : Int) - ((e.count + 1 : Nat) : Int),
            (e.resetTime : Int) - (nowMs : Int)⟩,
           rlSet store key ⟨e.count + 1, e.resetTime⟩))) ∧
    (∀ (t0 : Nat) (ts : List Nat), store key = none →
      ts.length = cfg.maxRequests → 1 ≤ cfg.maxRequests →
      (∀ t ∈ ts, t ≤ t0 + cfg.windowMs) →
      ∃ r, (rlRun key cfg (t0 :: ts) store).1.getLast? = some r ∧
        r.allowed = false ∧ r.remaining = 0) := by
  refine ⟨?_, ?_, ?_, ?_⟩
  · intro h
    simp only [checkRateLimit, h]
  · intro e h he
    simp only [checkRateLimit, h]
    rw [if_pos he]
  · intro e h he
    simp only [checkRateLimit, h]
    rw [if_neg he]
  · intro t0 ts h hlen hmax hts
    have hfresh : checkRateLimit key cfg t0 store =
        (⟨true, (cfg.maxRequests : Int) - 1, (cfg.windowMs : Int)⟩,
         rlSet store key ⟨1, t0 + cfg.windowMs⟩) := by
      simp only [checkRateLimit, h]
    have hkey1 : (rlSet store key ⟨1, t0 + cfg.windowMs⟩) key =
        some ⟨1, t0 + cfg.windowMs⟩ := by simp [rlSet]
    obtain ⟨_, hlast⟩ := rlRun_within key cfg (t0 + cfg.windowMs) ts
      (rlSet store key ⟨1, t0 + cfg.windowMs⟩) 1 hkey1 hts
    rcases hrs : (rlRun key cfg ts (rlSet store key ⟨1, t0 + cfg.windowMs⟩)).1
      with _ | ⟨r0, rs'⟩
    · exfalso
      have := rlRun_length key cfg ts (rlSet store key ⟨1, t0 + cfg.windowMs⟩)
      rw [hrs] at this
      simp at this
      omega
    · have hgl : (rlRun key cfg (t0 :: ts) store).1.getLast? = (r0 :: rs').getLast? := by
        simp only [rlRun, hfresh]
        rw [hrs]
        simp [List.getLast?_cons_cons]
      rcases hlr : (r0 :: rs').getLast? with _ | r
      · simp at hlr
      · obtain ⟨ha, hrem⟩ := hlast r (by rw [hrs]; exact hlr)
        refine ⟨r, by rw [hgl, hlr], ?_, hrem (by omega)⟩
        rw [ha, hlen]
        simp only [decide_eq_false_iff_not]
        omega

/-- C5 witness: with `maxRequests = 2`, `windowMs = 1000` and calls at
times 0, 10, 20 against a fresh store, the first call is allowed with
remaining 1 and the third call (the (N+1)-th within the window) is denied
with remaining 0. -/
theorem c5_fixed_window_witness :
    checkRateLimit "login:ip" ⟨1000, 2⟩ 0 (fun _ => none) =
      (⟨true, 1, 1000⟩, rlSet (fun _ => none) "login:ip" ⟨1, 1000⟩) ∧
    ∃ r, (rlRun "login:ip" ⟨1000, 2⟩ [0, 10, 20] (fun _ => none)).1.getLast? = some r ∧
      r.allowed = false ∧ r.remaining = 0 := by
  refine ⟨(c5_fixed_window_rate_limiting "login:ip" ⟨1000, 2⟩ 0 (fun _ => none)).1 rfl, ?_⟩
  exact (c5_fixed_window_rate_limiting "login:ip" ⟨1000, 2⟩ 0 (fun _ => none)).2.2.2
    0 [10, 20] rfl rfl (by decide) (by intro t ht; simp at ht; rcases ht with rfl | rfl <;> decide)

/-- C6 counterexample: `/dashboard/app.css` is a Protected path by the
middleware's own classification (it starts with `/dashboard`), yet a
request with no access-token cookie passes through unmodified because the
bypass skips every path containing a dot — the claim's unconditional
redirect-to-login for anonymous requests to Protected paths fails. -/
theorem c6_dot_path_bypasses_guard :
    isProtectedRoute "/dashboard/app.css".data = true ∧
    middleware demoHmac demoSecret 0 "/dashboard/app.css".data none = MwDecision.next ∧
    MwDecision.next ≠ MwDecision.redirectLogin "/dashboard/app.css".data := by
  refine ⟨by decide, by decide, by decide⟩

/-- C6 (amended): for every request whose path is not bypassed (does not
start with `/_next` or `/api/auth` and contains no dot), the route-guard
decision table holds. Protected paths: no cookie, a cookie failing Edge
verification, or a valid token whose verified flag is not true all
redirect to login with the original pathname as the redirect parameter; a
valid verified token passes through. AuthOnly paths (login/register): no
cookie or a failing token passes through, a valid-but-unverified token
passes through, and a valid verified token redirects to the dashboard. -/
theorem c6_route_guard_decision_amended (hmac : HmacFn) (secret : List Char)
    (nowMs : Nat) (pathname : List Char) (cookie : Option (List Char))
    (hskip : mwSkips pathname = false) :
    (isProtectedRoute pathname = true →
      ((cookie = none → middleware hmac secret nowMs pathname cookie =
          MwDecision.redirectLogin pathname) ∧
       (∀ t, cookie = some t → (verifyTokenEdge hmac secret nowMs t).valid = false →
          middleware hmac secret nowMs pathname cookie = MwDecision.redirectLogin pathname) ∧
       (∀ t, cookie = some t → (verifyTokenEdge hmac secret nowMs t).valid = true →
          truthy (verifyTokenEdge hmac secret nowMs t).isVerified = false →
          middleware hmac secret nowMs pathname cookie = MwDecision.redirectLogin pathname) ∧
       (∀ t, cookie = some t → (verifyTokenEdge hmac secret nowMs t).valid = true →
          truthy (verifyTokenEdge hmac secret nowMs t).isVerified = true →
          middleware hmac secret nowMs pathname cookie = MwDecision.next))) ∧
    (isAuthRoute pathname = true →
      ((cookie = none → middleware hmac secret nowMs pathname cookie = MwDecision.next) ∧
       (∀ t, cookie = some t → (verifyTokenEdge hmac secret nowMs t).valid = false →
          middleware hmac secret nowMs pathname cookie = MwDecision.next) ∧
       (∀ t, cookie = some t → (verifyTokenEdge hmac secret nowMs t).valid = true →
          truthy (verifyTokenEdge hmac secret nowMs t).isVerified = false →
          middleware hmac secret nowMs pathname cookie = MwDecision.next) ∧
       (∀ t, cookie = some t → (verifyTokenEdge hmac secret nowMs t).valid = true →
          truthy (verifyTokenEdge hmac secret nowMs t).isVerified = true →
          middleware hmac secret nowMs pathname cookie = MwDecision.redirectDashboard))) := by
  constructor
  · intro hprot
    refine ⟨?_, ?_, ?_, ?_⟩
    · intro hc
      subst hc
      simp [middleware, hskip, hprot, truthy]
    · intro t hc hv
      subst hc
      simp [middleware, hskip, hprot, hv]
    · intro t hc hv htr
      subst hc
      simp [middleware, hskip, hprot, hv, htr]
    · intro t hc hv htr
      subst hc
      simp [middleware, hskip, hprot, hv, htr]
      by_contra hauth
      simp only [Bool.not_eq_false] at hauth
      rw [isAuthRoute_not_protected hauth] at hprot
      simp at hprot
  · intro hauth
    have hnp := isAuthRoute_not_protected hauth
    refine ⟨?_, ?_, ?_, ?_⟩
    · intro hc
      subst hc
      simp [middleware, hskip, hnp, truthy]
    · intro t hc hv
      subst hc
      simp [middleware, hskip, hnp, hv]
    · intro t hc hv htr
      subst hc
      simp [middleware, hskip, hnp, hv, htr]
    · intro t hc hv htr
      subst hc
      simp [middleware, hskip, hnp, hauth, hv, htr]

/-- C6 witness: the decision table applied at `/dashboard` with no cookie
(redirect to login capturing the path) and at `/login` with no cookie
(allowed through). -/
theorem c6_route_guard_witness :
    middleware demoHmac demoSecret 0 "/dashboard".data none =
      MwDecision.redirectLogin "/dashboard".data ∧
    middleware demoHmac demoSecret 0 "/login".data none = MwDecision.next := by
  constructor
  · exact ((c6_route_guard_decision_amended demoHmac demoSecret 0 "/dashboard".data none
      (by decide)).1 (by decide)).1 rfl
  · exact ((c6_route_guard_decision_amended demoHmac demoSecret 0 "/login".data none
      (by decide)).2 (by decide)).1 rfl

/-- C7: the forgot-password anti-enumeration property. For every
well-formed request (rate limit not exceeded, email field present and
truthy), the HTTP envelope is the identical generic 200 success response
whether or not an account with that email exists — the response does not
depend on the database at all; the reset token is stored as `sha` hash
with a one-hour expiry and the reset email is sent only in the run where
the account exists, and the no-account run leaves the database unchanged
and sends nothing. -/
theorem c7_forgot_password_anti_enumeration
    (sha bcryptHash : List Char → List Char) (nowMs : Nat) (store : RLStore)
    (ip : String) (email : Option (List Char)) (db : List UserRec)
    (resetTokenRaw : List Char)
    (hallow : (checkRateLimit (getRateLimitKey ip "passwordReset")
      passwordResetConfig nowMs store).1.allowed = true)
    (e : List Char) (hemail : email = some e) (hne : e ≠ []) :
    ((forgotPasswordPOST sha bcryptHash nowMs store ip email db resetTokenRaw).1 =
      forgotSuccessResp) ∧
    (findFirst (fun u => u.email = toLowerChars e) db = none →
      forgotPasswordPOST sha bcryptHash nowMs store ip email db resetTokenRaw =
        (forgotSuccessResp, db, false)) ∧
    (∀ u, findFirst (fun u => u.email = toLowerChars e) db = some u →
      forgotPasswordPOST sha bcryptHash nowMs store ip email db resetTokenRaw =
        (forgotSuccessResp,
         updateFirst (fun u => u.email = toLowerChars e)
           (fun u => saveUser bcryptHash u
             { u with resetPasswordToken := some (sha resetTokenRaw),
                      resetPasswordExpires := some (nowMs + 60 * 60 * 1000) }) db,
         true)) := by
  subst hemail
  have htr : strTruthy (some e) = true := by
    cases e with
    | nil => exact absurd rfl hne
    | cons c t => rfl
  refine ⟨?_, ?_, ?_⟩
  · simp only [forgotPasswordPOST, hallow, htr, Bool.not_true, Bool.false_eq_true, if_false]
    rcases hf : findFirst (fun u => u.email = toLowerChars ((some e).getD [])) db with _ | u <;>
      simp [hf]
  · intro hf
    simp only [forgotPasswordPOST, hallow, htr, Bool.not_true, Bool.false_eq_true, if_false]
    simp only [Option.getD_some] at hf ⊢
    rw [hf]
  · intro u hf
    simp only [forgotPasswordPOST, hallow, htr, Bool.not_true, Bool.false_eq_true, if_false]
    simp only [Option.getD_some] at hf ⊢
    rw [hf]

/-- C7 witness: with an empty store, an empty database and a present email,
the endpoint answers with exactly the generic success envelope, leaves the
database untouched and sends no email. -/
theorem c7_forgot_password_witness :
    forgotPasswordPOST (fun s => s) (fun s => '#' :: s) 0 (fun _ => none) c7ip
      (some c7email) [] "rawtok".data = (forgotSuccessResp, [], false) :=
  (c7_forgot_password_anti_enumeration (fun s => s) (fun s => '#' :: s) 0 (fun _ => none)
    c7ip (some c7email) [] "rawtok".data (by decide) c7email rfl (by decide)).2.1 rfl

/-- C8: the reset-password contract. A 200 success is only possible when
some user's stored `resetPasswordToken` equals the hash of the presented
token and that user's stored expiry lies strictly in the future; when a
matching user is found, the endpoint answers 200 and persists the record
with the new password and both reset fields cleared through `saveUser`
(the pre-save hook); when none matches it answers 400 and the database is
unchanged; and the pre-save hook re-hashes a modified password with
bcrypt before persistence. -/
theorem c8_reset_password_contract
    (sha bcryptHash : List Char → List Char) (nowMs : Nat)
    (tok pw : List Char) (db : List UserRec)
    (htok : tok ≠ []) (hpw : 8 ≤ pw.length) :
    ((resetPasswordPOST sha bcryptHash nowMs (some tok) (some pw) db).1.success = true →
      ∃ u, u ∈ db ∧ u.resetPasswordToken = some (sha tok) ∧
        ∃ e, u.resetPasswordExpires = some e ∧ nowMs < e) ∧
    (∀ u, findFirst (resetMatches (sha tok) nowMs) db = some u →
      resetPasswordPOST sha bcryptHash nowMs (some tok) (some pw) db =
        (⟨200, true,
          "Password reset successfully. You can now log in with your new password.".data⟩,
         updateFirst (resetMatches (sha tok) nowMs)
           (fun u => saveUser bcryptHash u
             { u with password := pw, resetPasswordToken := none,
                      resetPasswordExpires := none }) db)) ∧
    (findFirst (resetMatches (sha tok) nowMs) db = none →
      resetPasswordPOST sha bcryptHash nowMs (some tok) (some pw) db =
        (⟨400, false, "Invalid or expired reset token".data⟩, db)) ∧
    (∀ u : UserRec, pw ≠ u.password →
      saveUser bcryptHash u
        { u with password := pw, resetPasswordToken := none,
                 resetPasswordExpires := none } =
        { u with password := bcryptHash pw, resetPasswordToken := none,
                 resetPasswordExpires := none }) := by
  have ht1 : strTruthy (some tok) = true := by
    cases tok with
    | nil => exact absurd rfl htok
    | cons a b => rfl
  have ht2 : strTruthy (some pw) = true := by
    cases pw with
    | nil => simp at hpw
    | cons a b => rfl
  have hlen : ¬ pw.length < 8 := Nat.not_lt.mpr hpw
  refine ⟨?_, ?_, ?_, ?_⟩
  · intro hs
    simp only [resetPasswordPOST, ht1, ht2, Bool.not_true, Bool.or_self,
      Bool.false_eq_true, if_false, Option.getD_some] at hs
    rw [if_neg hlen] at hs
    rcases hf : findFirst (resetMatches (sha tok) nowMs) db with _ | u
    · rw [hf] at hs
      simp at hs
    · have hm : u ∈ db := List.mem_of_find?_eq_some hf
      have hp : resetMatches (sha tok) nowMs u = true := List.find?_some hf
      simp only [resetMatches, Bool.and_eq_true, decide_eq_true_eq] at hp
      obtain ⟨hp1, hp2⟩ := hp
      rcases he : u.resetPasswordExpires with _ | e
      · rw [he] at hp2
        simp at hp2
      · rw [he] at hp2
        exact ⟨u, hm, hp1, e, he, of_decide_eq_true hp2⟩
  · intro u hf
    simp only [resetPasswordPOST, ht1, ht2, Bool.not_true, Bool.or_self,
      Bool.false_eq_true, if_false, Option.getD_some]
    rw [if_neg hlen, hf]
  · intro hf
    simp only [resetPasswordPOST, ht1, ht2, Bool.not_true, Bool.or_self,
      Bool.false_eq_true, if_false, Option.getD_some]
    rw [if_neg hlen, hf]
  · intro u hne
    obtain ⟨nm, em, pwd, rl, iv, vt, rt, re⟩ := u
    simp only [saveUser]
    rw [if_neg (by simpa using hne)]

/-- C8 witness: on a database holding one user whose stored reset hash is
the hash of the presented token and whose expiry lies in the future, the
endpoint succeeds, and the contract exhibits that matching user. -/
theorem c8_reset_password_witness :
    ∃ u, u ∈ [c8User] ∧ u.resetPasswordToken = some "tok".data ∧
      ∃ e, u.resetPasswordExpires = some e ∧ 0 < e :=
  (c8_reset_password_contract (fun s => s) (fun s => '#' :: s) 0 "tok".data
    "newpassw".data [c8User] (by decide) (by decide)).1 (by decide)

/-- C9 counterexample: submit the same verification token twice. The first
pass verifies the account; the second pass on the updated database answers
the 400 invalid-token envelope instead of the no-op success the claim
promises, because the stored token hash was cleared on success. -/
theorem c9_reverify_after_completion_fails :
    (verifyEmailGET (fun s => s) (fun s => '#' :: s) (some "vtok".data) [c9User]).1 =
      verifySuccessResp ∧
    verifyEmailGET (fun s => s) (fun s => '#' :: s) (some "vtok".data)
        (verifyEmailGET (fun s => s) (fun s => '#' :: s) (some "vtok".data) [c9User]).2 =
      (verifyInvalidResp,
       (verifyEmailGET (fun s => s) (fun s => '#' :: s) (some "vtok".data) [c9User]).2) ∧
    verifyInvalidResp = ⟨400, false, "Invalid or expired verification token".data⟩ :=
  ⟨rfl, rfl, rfl⟩

/-- C9 amended: re-submitting the verification token after a completed
verification is NOT a no-op success — provided at most one record carries
the token hash, the second submission finds no matching user (the hash was
cleared by the first) and returns the 400 invalid-token envelope, leaving
the database unchanged. -/
theorem c9_reverify_after_completion_amended
    (sha bcryptHash : List Char → List Char) (tok : List Char) (db : List UserRec)
    (hcount : db.countP (fun u => u.verificationToken = some (sha tok)) ≤ 1)
    (hfound : ∃ u, findFirst (fun u => u.verificationToken = some (sha tok)) db = some u)
    (htok : tok ≠ []) :
    verifyEmailGET sha bcryptHash (some tok)
        (verifyEmailGET sha bcryptHash (some tok) db).2 =
      (verifyInvalidResp, (verifyEmailGET sha bcryptHash (some tok) db).2) := by
  have ht1 : strTruthy (some tok) = true := by
    cases tok with
    | nil => exact absurd rfl htok
    | cons a b => rfl
  obtain ⟨u, hf⟩ := hfound
  have h1 : (verifyEmailGET sha bcryptHash (some tok) db).2 =
      updateFirst (fun u => u.verificationToken = some (sha tok))
        (fun u => saveUser bcryptHash u
          { u with isVerified := true, verificationToken := none }) db := by
    simp only [verifyEmailGET, ht1, Bool.not_true, Bool.false_eq_true, if_false,
      Option.getD_some]
    rw [hf]
  have hstep : ∀ v : UserRec,
      (fun u : UserRec => decide (u.verificationToken = some (sha tok))) v = true →
      (fun u : UserRec => decide (u.verificationToken = some (sha tok)))
        ((fun u : UserRec => saveUser bcryptHash u
          { u with isVerified := true, verificationToken := none }) v) = false := by
    intro v _
    obtain ⟨nm, em, pwd, rl, iv, vt, rt, re⟩ := v
    simp only [saveUser]
    split <;> simp
  have hnone := find?_updateFirst_none hstep db hcount
  rw [h1]
  simp only [verifyEmailGET, ht1, Bool.not_true, Bool.false_eq_true, if_false,
    Option.getD_some, findFirst]
  rw [hnone]

/-- C9 witness for the amended statement: the concrete two-pass run of the
counterexample database, obtained by applying the amended theorem. -/
theorem c9_reverify_amended_witness :
    verifyEmailGET (fun s => s) (fun s => '#' :: s) (some "vtok".data)
        (verifyEmailGET (fun s => s) (fun s => '#' :: s) (some "vtok".data) [c9User]).2 =
      (verifyInvalidResp,
       (verifyEmailGET (fun s => s) (fun s => '#' :: s) (some "vtok".data) [c9User]).2) :=
  c9_reverify_after_completion_amended (fun s => s) (fun s => '#' :: s) "vtok".data
    [c9User] (by decide) ⟨c9User, by decide⟩ (by decide)
